import Mathlib

/-!
Verification development for the rxiv_paper_scraper repository.

Shallow embedding of the core components named by the specification:
the multi-agent database connection pool
(src/arxiv_scraper/database/agent_pool_manager.py), the rate limiter
(src/arxiv_scraper/utils/rate_limiter.py), the storage-aware PDF download
pipeline (src/arxiv_scraper/scraper/pdf_downloader.py) and the enhanced
downloader agent (src/arxiv_scraper/downloader_agent.py).

Modelling conventions:
* Python ints are Nat or Int as appropriate; Python floats that only enter
  comparisons and subtractions are Int (timestamps) or Rat (percentages),
  rendering the float comparisons exactly over the rationals.
* The MD5 digest is an opaque parameter `hash : List Nat → String`; the code
  only ever produces and compares digests of file contents.
* Filesystems are association lists from path to byte contents, in creation
  order; Python dicts are association lists in insertion order (deletion
  keeps the order of the remaining entries, as in CPython).
* Network and MCP responses are explicit inputs describing what the
  excluded collaborator returned.
-/

namespace RxivScraper

/-! ## Rate limiter (src/arxiv_scraper/utils/rate_limiter.py) -/

structure RateLimiter where
  delay : ℚ
  last_call_time : ℚ
deriving DecidableEq

/-- `RateLimiter.__init__`: `last_call_time = 0.0`. -/
def RateLimiter.init (delay : ℚ) : RateLimiter :=
  { delay := delay, last_call_time := 0 }

/-- `RateLimiter.can_proceed`, a pure query of the state at current time `t`. -/
def can_proceed (r : RateLimiter) (t : ℚ) : Bool :=
  decide (r.delay ≤ t - r.last_call_time)

/-- `RateLimiter.time_until_next_call`, a pure query of the state at time `t`. -/
def time_until_next_call (r : RateLimiter) (t : ℚ) : ℚ :=
  if r.delay ≤ t - r.last_call_time then 0
  else r.delay - (t - r.last_call_time)

/-- `RateLimiter.wait` called at time `t`: returns the slept duration and the
updated limiter.  The second `time.time()` reading that stamps
`last_call_time` is modelled as `t` plus the slept duration (the sleep is the
only elapsed time between the two readings). -/
def wait (r : RateLimiter) (t : ℚ) : ℚ × RateLimiter :=
  let time_since_last_call := t - r.last_call_time
  let wait_time := if time_since_last_call < r.delay then r.delay - time_since_last_call else 0
  (wait_time, { r with last_call_time := t + wait_time })

/-! ## StorageManager usage accounting (src/arxiv_scraper/scraper/pdf_downloader.py)

`get_current_storage_usage` walks the storage tree; the walk either yields the
list of (filename, size) entries or raises, which we model as `Except`. -/

/-- `StorageManager.get_current_storage_usage`: sums the sizes of files whose
name ends in ".pdf"; any exception during the walk yields 0. -/
def get_current_storage_usage (walk : Except String (List (String × Nat))) : Nat :=
  match walk with
  | .error _ => 0
  | .ok files =>
      ((files.filter (fun f => String.endsWith f.1 (".pdf"))).map (fun f => f.2)).sum

/-- `StorageManager.can_store_file`. -/
def can_store_file (walk : Except String (List (String × Nat)))
    (max_storage_bytes file_size : Nat) : Bool :=
  decide (get_current_storage_usage walk + file_size ≤ max_storage_bytes)

/-! ## Agent pool manager (src/arxiv_scraper/database/agent_pool_manager.py) -/

structure AgentConnectionInfo where
  agent_id : String
  agent_type : String
  connection_count : Nat
  last_activity : Int
  max_connections : Nat
  priority : Nat
deriving DecidableEq

/-- The static `_agent_configs` table: (max_connections, priority) per type. -/
def agent_configs (agent_type : String) : Option (Nat × Nat) :=
  match agent_type with
  | "crawler" => some (8, 2)
  | "scraper" => some (10, 3)
  | "downloader" => some (5, 2)
  | "database" => some (3, 4)
  | "nlp" => some (4, 1)
  | "monitoring" => some (2, 1)
  | "testing" => some (2, 1)
  | "orchestrator" => some (3, 4)
  | _ => none

/-- Python `x or default` on an optional int: `None` and `0` are falsy. -/
def py_or_nat (x : Option Nat) (default : Nat) : Nat :=
  match x with
  | none => default
  | some 0 => default
  | some (n + 1) => n + 1

/-- The pool state: the `_agents` dict (self-keyed by `agent_id`), the
`_connections` dict (agent id to the connection ids it holds, in creation
order) and the `_active_connections` counter.  Connection ids are the
timestamp-derived unique ids of the code, supplied by the operations. -/
structure PoolState where
  total_max_connections : Nat
  connection_timeout : Int
  agents : List AgentConnectionInfo
  connections : List (String × List Nat)
  active_connections : Int
deriving DecidableEq

/-- A fresh `AgentPoolManager`. -/
def init_pool (total_max_connections : Nat) (connection_timeout : Int) : PoolState :=
  { total_max_connections := total_max_connections
    connection_timeout := connection_timeout
    agents := []
    connections := []
    active_connections := 0 }

def keys_of (agents : List AgentConnectionInfo) : List String :=
  agents.map (fun a => a.agent_id)

def lookup_agent (s : PoolState) (agent_id : String) : Option AgentConnectionInfo :=
  s.agents.find? (fun a => a.agent_id = agent_id)

def lookup_conns (conns : List (String × List Nat)) (agent_id : String) : List Nat :=
  match conns.find? (fun p => p.1 = agent_id) with
  | some p => p.2
  | none => []

/-- Pointwise update of the unique agent record with the given id. -/
def update_agent (agents : List AgentConnectionInfo) (agent_id : String)
    (f : AgentConnectionInfo → AgentConnectionInfo) : List AgentConnectionInfo :=
  agents.map (fun a => if a.agent_id = agent_id then f a else a)

/-- Overwrite the connection list stored under an existing key. -/
def set_conns (conns : List (String × List Nat)) (agent_id : String) (v : List Nat) :
    List (String × List Nat) :=
  conns.map (fun p => if p.1 = agent_id then (p.1, v) else p)

/-- `del dict[key]`: remove the (unique) entry with the given key. -/
def erase_agent_key : List AgentConnectionInfo → String → List AgentConnectionInfo
  | [], _ => []
  | a :: rest, agent_id =>
      if a.agent_id = agent_id then rest else a :: erase_agent_key rest agent_id

def erase_conn_key : List (String × List Nat) → String → List (String × List Nat)
  | [], _ => []
  | p :: rest, agent_id =>
      if p.1 = agent_id then rest else p :: erase_conn_key rest agent_id

/-- `AgentPoolManager.register_agent`. -/
def register_agent (s : PoolState) (agent_id agent_type : String)
    (max_connections priority : Option Nat) (now : Int) : Bool × PoolState :=
  if (s.agents.find? (fun a => a.agent_id = agent_id)).isSome then (false, s)
  else
    let type_config := agent_configs agent_type
    let max_conn := py_or_nat max_connections (match type_config with
      | some c => c.1
      | none => 3)
    let agent_priority := py_or_nat priority (match type_config with
      | some c => c.2
      | none => 1)
    let info : AgentConnectionInfo :=
      { agent_id := agent_id
        agent_type := agent_type
        connection_count := 0
        last_activity := now
        max_connections := max_conn
        priority := agent_priority }
    (true, { s with
              agents := s.agents ++ [info]
              connections := s.connections ++ [(agent_id, [])] })

/-- The eviction sort key of `_try_free_connections_for_agent`:
`(priority, last_activity)` ascending, lexicographically. -/
def preempt_key_le (a b : AgentConnectionInfo) : Bool :=
  decide (a.priority < b.priority ∨ (a.priority = b.priority ∧ a.last_activity ≤ b.last_activity))

/-- The preemption candidate filter of `_try_free_connections_for_agent`:
other agents with strictly lower priority holding more than one connection. -/
def candidate_agents (s : PoolState) (requesting_agent_id : String)
    (requesting_agent : AgentConnectionInfo) : List AgentConnectionInfo :=
  s.agents.filter (fun a =>
    decide (¬ a.agent_id = requesting_agent_id ∧
      a.priority < requesting_agent.priority ∧ 1 < a.connection_count))

/-- `AgentPoolManager._try_free_connections_for_agent`: sort the candidates by
`(priority, last_activity)` and close the first connection of the first
candidate.  Closing a Mongo client is modelled as always succeeding. -/
def try_free_connections_for_agent (s : PoolState) (requesting_agent_id : String) :
    Bool × PoolState :=
  match s.agents.find? (fun a => a.agent_id = requesting_agent_id) with
  | none => (false, s)
  | some requesting_agent =>
      match (candidate_agents s requesting_agent_id requesting_agent).mergeSort
          preempt_key_le with
      | [] => (false, s)
      | victim :: _ =>
          match lookup_conns s.connections victim.agent_id with
          | [] => (false, s)
          | _ :: rest =>
              (true, { s with
                connections := set_conns s.connections victim.agent_id rest
                agents := update_agent s.agents victim.agent_id
                  (fun a => { a with connection_count := a.connection_count - 1 })
                active_connections := s.active_connections - 1 })

/-- `AgentPoolManager._can_create_connection`.  It may mutate the pool through
preemption, so it returns the new state alongside the verdict. -/
def can_create_connection (s : PoolState) (agent_id : String) : Bool × PoolState :=
  match s.agents.find? (fun a => a.agent_id = agent_id) with
  | none => (false, s)
  | some agent_info =>
      if agent_info.max_connections ≤ agent_info.connection_count then (false, s)
      else if (s.total_max_connections : Int) ≤ s.active_connections then
        try_free_connections_for_agent s agent_id
      else (true, s)

inductive AcquireOutcome where
  | notRegistered
  | capacityError
  | acquired
deriving DecidableEq

/-- The acquisition half of `AgentPoolManager.get_connection`: the
not-registered check (ValueError), the capacity check with possible
preemption (RuntimeError on failure), then the bookkeeping for the new
connection.  `conn_id` is the timestamp-derived connection id. -/
def get_connection_acquire (s : PoolState) (agent_id : String) (conn_id : Nat)
    (now : Int) : AcquireOutcome × PoolState :=
  if (s.agents.find? (fun a => a.agent_id = agent_id)).isNone then (.notRegistered, s)
  else
    match can_create_connection s agent_id with
    | (false, s1) => (.capacityError, s1)
    | (true, s1) =>
        (.acquired, { s1 with
                       connections := set_conns s1.connections agent_id
                         (lookup_conns s1.connections agent_id ++ [conn_id])
                       agents := update_agent s1.agents agent_id
                         (fun a => { a with
                                      connection_count := a.connection_count + 1
                                      last_activity := now })
                       active_connections := s1.active_connections + 1 })

/-- The release half of `AgentPoolManager.get_connection` (its `finally`
block): close and forget the connection if it is still tracked. -/
def release_connection (s : PoolState) (agent_id : String) (conn_id : Nat) : PoolState :=
  if (s.connections.find? (fun p => p.1 = agent_id)).isSome ∧
      conn_id ∈ lookup_conns s.connections agent_id then
    { s with
      connections := set_conns s.connections agent_id
        ((lookup_conns s.connections agent_id).erase conn_id)
      agents := update_agent s.agents agent_id
        (fun a => { a with connection_count := a.connection_count - 1 })
      active_connections := s.active_connections - 1 }
  else s

/-- `AgentPoolManager._close_agent_connections`: close every connection of the
agent, decrementing `_active_connections` per connection, then drop the agent
from both dicts. -/
def close_agent_connections (s : PoolState) (agent_id : String) : PoolState :=
  let s1 :=
    match s.connections.find? (fun p => p.1 = agent_id) with
    | some p =>
        { s with
          active_connections := s.active_connections - (p.2.length : Int)
          connections := erase_conn_key s.connections agent_id }
    | none => s
  { s1 with agents := erase_agent_key s1.agents agent_id }

/-- One step of the `_cleanup_idle_connections` loop body for a snapshot key. -/
def cleanup_step (t : Int) (s : PoolState) (agent_id : String) : PoolState :=
  match s.agents.find? (fun a => a.agent_id = agent_id) with
  | some agent_info =>
      if s.connection_timeout < t - agent_info.last_activity then
        close_agent_connections s agent_id
      else s
  | none => s

/-- `AgentPoolManager._cleanup_idle_connections` run at time `t`: iterate over
a snapshot of the registered ids and close every agent idle beyond the
timeout. -/
def cleanup_idle_connections (s : PoolState) (t : Int) : PoolState :=
  (keys_of s.agents).foldl (cleanup_step t) s

/-- `AgentPoolManager.shutdown`: close all agents, then clear all state. -/
def shutdown_pool (s : PoolState) : PoolState :=
  let s1 := (keys_of s.agents).foldl (fun acc agent_id => close_agent_connections acc agent_id) s
  { s1 with agents := [], connections := [], active_connections := 0 }

/-- The pool operations reachable from outside: registration, the acquire and
release halves of `get_connection`, the idle-cleanup sweep and shutdown. -/
inductive PoolOp where
  | register (agent_id agent_type : String) (max_connections priority : Option Nat) (now : Int)
  | acquire (agent_id : String) (conn_id : Nat) (now : Int)
  | release (agent_id : String) (conn_id : Nat)
  | cleanup (t : Int)
  | shutdownOp
deriving DecidableEq

def apply_op (s : PoolState) : PoolOp → PoolState
  | .register agent_id agent_type max_connections priority now =>
      (register_agent s agent_id agent_type max_connections priority now).2
  | .acquire agent_id conn_id now => (get_connection_acquire s agent_id conn_id now).2
  | .release agent_id conn_id => release_connection s agent_id conn_id
  | .cleanup t => cleanup_idle_connections s t
  | .shutdownOp => shutdown_pool s

def run_ops (s : PoolState) (ops : List PoolOp) : PoolState :=
  ops.foldl apply_op s

def sum_counts (agents : List AgentConnectionInfo) : Nat :=
  (agents.map (fun a => a.connection_count)).sum

/-- The pool bookkeeping invariant: unique agent ids, the two dicts share
their key sequence, each tracked connection list has the length recorded in
`connection_count`, `_active_connections` is the sum of the per-agent
counters, the global cap holds, and every agent respects its own cap. -/
def PoolInv (s : PoolState) : Prop :=
  (keys_of s.agents).Nodup ∧
  s.connections.map Prod.fst = keys_of s.agents ∧
  (∀ a ∈ s.agents, (lookup_conns s.connections a.agent_id).length = a.connection_count) ∧
  s.active_connections = (sum_counts s.agents : Int) ∧
  s.active_connections ≤ (s.total_max_connections : Int) ∧
  (∀ a ∈ s.agents, a.connection_count ≤ a.max_connections)

instance (s : PoolState) : Decidable (PoolInv s) := by
  unfold PoolInv
  infer_instance

/-! ## PDF downloader (src/arxiv_scraper/scraper/pdf_downloader.py) -/

/-- A filesystem: association list from path to byte contents. -/
abbrev Fs := List (String × List Nat)

def lookup_fs (fs : Fs) (path : String) : Option (List Nat) :=
  (fs.find? (fun e => e.1 = path)).map (fun e => e.2)

/-- Writing a file: replace the contents under an existing path, else append. -/
def insert_fs (fs : Fs) (path : String) (contents : List Nat) : Fs :=
  if (fs.find? (fun e => e.1 = path)).isSome then
    fs.map (fun e => if e.1 = path then (path, contents) else e)
  else fs ++ [(path, contents)]

/-- `Path.unlink`: remove the entry with the given path. -/
def remove_fs : Fs → String → Fs
  | [], _ => []
  | e :: rest, path => if e.1 = path then rest else e :: remove_fs rest path

/-- On-disk usage seen by the capacity checks: total bytes of ".pdf" files. -/
def pdf_usage (fs : Fs) : Nat :=
  ((fs.filter (fun e => String.endsWith e.1 (".pdf"))).map (fun e => e.2.length)).sum

/-- `StorageManager.can_store_file` applied to the modelled tree. -/
def can_store_file_fs (fs : Fs) (max_storage_bytes file_size : Nat) : Bool :=
  decide (pdf_usage fs + file_size ≤ max_storage_bytes)

/-- `StorageManager.get_paper_file_path` filename sanitisation. -/
def sanitize_id (paper_id : String) : String :=
  String.mk (paper_id.data.filter (fun c =>
    c.isAlphanum || c = ('.') || c = ('-') || c = ('_')))

/-- `StorageManager.get_paper_file_path` for base directory `base`. -/
def get_paper_file_path (base paper_id source : String) : String :=
  let safe_id := sanitize_id paper_id
  if source = ("arxiv") then
    if paper_id.contains ('.') then
      let year_month := (paper_id.splitOn (".")).headD ("")
      base ++ ("/arxiv/") ++ year_month ++ ("/") ++ safe_id ++ (".pdf")
    else base ++ ("/arxiv/") ++ safe_id ++ (".pdf")
  else base ++ ("/") ++ source ++ ("/") ++ safe_id ++ (".pdf")

/-- `PDFDownloader._validate_pdf_file` on the file at `path`: at least 1000
bytes and the `%PDF-` header; a missing file (stat raising) is invalid. -/
def validate_pdf_file (fs : Fs) (path : String) : Bool :=
  match lookup_fs fs path with
  | none => false
  | some contents =>
      decide (1000 ≤ contents.length) &&
        List.isPrefixOf ([37, 80, 68, 70, 45]) contents

structure DlFileResult where
  success : Bool
  file_size : Nat := 0
  md5_hash : Option String := none
  error : Option String := none
deriving DecidableEq

/-- `PDFDownloader._download_file` for a response `(status, reason,
content_length, body)`.  The chunked write with its per-chunk storage check is
modelled as writing the whole body and checking once: the per-chunk usage is
monotone in the prefix written, so the check trips for some chunk exactly when
it trips for the full body, and every state the caller can observe (final
filesystem, result) agrees.  The chunk loop body runs only when the body is
nonempty.  The rate-limiter wait and the content-type warning do not touch
the filesystem or the result and are omitted. -/
def download_file (hash : List Nat → String) (fs : Fs) (max_storage_bytes : Nat)
    (file_path : String) (status : Nat) (reason : String)
    (content_length : Option Nat) (body : List Nat) : DlFileResult × Fs :=
  if ¬ status = 200 then
    ({ success := false, error := some (("HTTP ") ++ toString status ++ (": ") ++ reason) }, fs)
  else
    let expected_size := content_length.getD 0
    if 0 < expected_size ∧ ¬ can_store_file_fs fs max_storage_bytes expected_size then
      ({ success := false, error := some (("Insufficient storage space for file")) }, fs)
    else
      let fs1 := insert_fs fs file_path body
      if ¬ body.isEmpty ∧ ¬ can_store_file_fs fs1 max_storage_bytes 0 then
        ({ success := false, error := some (("Storage limit exceeded during download")) },
          remove_fs fs1 file_path)
      else if ¬ validate_pdf_file fs1 file_path then
        ({ success := false, error := some (("Downloaded file is not a valid PDF")) },
          remove_fs fs1 file_path)
      else
        ({ success := true, file_size := body.length, md5_hash := some (hash body) }, fs1)

structure PaperRecord where
  paper_id : String
  pdf_url : String
  source : String
  pdf_downloaded : Bool := false
  pdf_file_path : Option String := none
  pdf_file_size : Nat := 0
deriving DecidableEq

/-- `PDFDownloader.download_paper` (storage base `base`): returns the updated
record, the new filesystem and whether the remote resource was fetched. -/
def download_paper (hash : List Nat → String) (fs : Fs) (max_storage_bytes : Nat)
    (base : String) (paper : PaperRecord) (status : Nat) (reason : String)
    (content_length : Option Nat) (body : List Nat) : PaperRecord × Fs × Bool :=
  if paper.pdf_downloaded then (paper, fs, false)
  else
    let file_path := get_paper_file_path base paper.paper_id paper.source
    let skip := match lookup_fs fs file_path with
      | some contents => decide (1000 < contents.length)
      | none => false
    if skip then
      ({ paper with
          pdf_downloaded := true
          pdf_file_path := some file_path
          pdf_file_size := ((lookup_fs fs file_path).getD []).length }, fs, false)
    else
      let r := download_file hash fs max_storage_bytes file_path status reason
        content_length body
      if r.1.success then
        ({ paper with
            pdf_downloaded := true
            pdf_file_path := some file_path
            pdf_file_size := r.1.file_size }, r.2, true)
      else (paper, r.2, true)

/-- `PDFDownloader.download_papers_batch` result aggregation: the gather with
`return_exceptions=True` yields, per paper, either an updated record or a
captured exception; an exception is replaced by the original paper record.
The function is total, so no exception crosses the batch boundary. -/
def download_papers_batch (papers : List PaperRecord)
    (outcomes : List (Except String PaperRecord)) : List PaperRecord :=
  (papers.zip outcomes).map (fun p =>
    match p.2 with
    | .error _ => p.1
    | .ok r => r)

/-! ## Enhanced downloader agent (src/arxiv_scraper/downloader_agent.py) -/

structure DownloadResult where
  url : String
  local_path : Option String
  success : Bool
  file_size : Nat := 0
  checksum : Option String := none
  error_message : Option String := none
deriving DecidableEq

/-- `storage_limit_gb = 300.0` in bytes. -/
def storage_limit_bytes : Nat := 300 * 1024 * 1024 * 1024

/-- `MCPEnhancedDownloaderAgent._check_storage_capacity`:
`usage_percentage < 95.0`, rendered exactly over the integers
(`usage_percentage = bytes / 2^30 / 300 * 100`). -/
def check_storage_capacity (fs : Fs) : Bool :=
  decide (100 * pdf_usage fs < 95 * storage_limit_bytes)

/-- `MCPEnhancedDownloaderAgent._generate_local_path`; `url_hash10` is the
first ten hex digits of the MD5 of the url, kept opaque. -/
def generate_local_path (url_hash10 : String → String) (storage_path url : String)
    (paper_id : Option String) : String :=
  let filename :=
    match paper_id with
    | some pid => pid ++ (".pdf")
    | none =>
        let fn := ((url.splitOn ("/")).getLastD (""))
        if String.endsWith fn (".pdf") then fn else (url_hash10 url) ++ (".pdf")
  let c := filename.front.toLower
  let subdir := if c.isAlphanum then String.singleton c else ("other")
  storage_path ++ ("/") ++ subdir ++ ("/") ++ filename

/-- `MCPEnhancedDownloaderAgent._download_fallback`: write the 200-response
body and report success with its checksum; no validation is performed.  The
third component records that the remote resource was fetched. -/
def download_fallback (hash : List Nat → String) (fs : Fs) (url local_path : String)
    (verify_integrity : Bool) (status : Nat) (reason : String) (body : List Nat) :
    DownloadResult × Fs × Bool :=
  if status = 200 then
    let fs1 := insert_fs fs local_path body
    ({ url := url, local_path := some local_path, success := true,
        file_size := body.length,
        checksum := if verify_integrity then some (hash body) else none }, fs1, true)
  else
    ({ url := url, local_path := none, success := false,
        error_message := some (("HTTP ") ++ toString status ++ (": ") ++ reason) }, fs, true)

/-- `MCPEnhancedDownloaderAgent._download_with_mcp`: the MCP server may write
the file as a side effect (`mcp_written`); on a reported success the size is
taken from disk (0 if the file is missing), and a missing file makes the
checksum read raise, which the except-branch turns into a failure result. -/
def download_with_mcp (hash : List Nat → String) (fs : Fs) (url local_path : String)
    (verify_integrity : Bool) (mcp_success : Bool) (mcp_error : Option String)
    (mcp_written : Option (List Nat)) : DownloadResult × Fs :=
  let fs1 := match mcp_written with
    | some b => insert_fs fs local_path b
    | none => fs
  if mcp_success then
    match lookup_fs fs1 local_path with
    | some contents =>
        ({ url := url, local_path := some local_path, success := true,
            file_size := contents.length,
            checksum := if verify_integrity then some (hash contents) else none }, fs1)
    | none =>
        if verify_integrity then
          ({ url := url, local_path := none, success := false,
              error_message := some (("MCP download failed: missing file")) }, fs1)
        else
          ({ url := url, local_path := some local_path, success := true,
              file_size := 0 }, fs1)
  else
    ({ url := url, local_path := none, success := false,
        error_message := some ((mcp_error.getD ("Unknown MCP download error"))) }, fs1)

/-- `MCPEnhancedDownloaderAgent.download_pdf`: the in-progress check, the
capacity check, the already-on-disk short circuit (which re-hashes the
existing file when `verify_integrity` is set), then the MCP or fallback
transfer.  Returns the result, the new filesystem, and whether the remote
resource was fetched.  The rate-limiter wait and the `download_time` and
history bookkeeping do not affect these outputs and are omitted. -/
def download_pdf (hash : List Nat → String) (url_hash10 : String → String) (fs : Fs)
    (active_downloads : List String) (storage_path url : String)
    (paper_id : Option String) (verify_integrity : Bool) (mcp_connected : Bool)
    (mcp_success : Bool) (mcp_error : Option String) (mcp_written : Option (List Nat))
    (status : Nat) (reason : String) (body : List Nat) : DownloadResult × Fs × Bool :=
  if url ∈ active_downloads then
    ({ url := url, local_path := none, success := false,
        error_message := some (("Download already in progress")) }, fs, false)
  else if ¬ check_storage_capacity fs then
    ({ url := url, local_path := none, success := false,
        error_message := some (("Storage limit exceeded")) }, fs, false)
  else
    let local_path := generate_local_path url_hash10 storage_path url paper_id
    match lookup_fs fs local_path with
    | some contents =>
        ({ url := url, local_path := some local_path, success := true,
            file_size := contents.length,
            checksum := if verify_integrity then some (hash contents) else none },
          fs, false)
    | none =>
        if mcp_connected then
          let r := download_with_mcp hash fs url local_path verify_integrity
            mcp_success mcp_error mcp_written
          (r.1, r.2, true)
        else download_fallback hash fs url local_path verify_integrity status reason body

/-- `MCPEnhancedDownloaderAgent.download_batch` result aggregation: a captured
exception becomes a failure result carrying the exception text.  The function
is total, so no exception crosses the batch boundary. -/
def download_batch (pdf_urls : List String)
    (outcomes : List (Except String DownloadResult)) : List DownloadResult :=
  (pdf_urls.zip outcomes).map (fun p =>
    match p.2 with
    | .error e =>
        { url := p.1, local_path := none, success := false, error_message := some e }
    | .ok r => r)

/-! ## Storage management and deduplication (downloader_agent.py) -/

structure StoredFile where
  path : String
  contents : List Nat
  mtime : Int
deriving DecidableEq

def total_bytes (fs : List StoredFile) : Nat :=
  (fs.map (fun f => f.contents.length)).sum

/-- `get_storage_stats().usage_percentage` over the store of ".pdf" files,
rendered exactly in ℚ: `bytes / 2^30 / 300 * 100`. -/
def usage_percentage (fs : List StoredFile) : ℚ :=
  ((total_bytes fs : ℚ) / ((1024 : ℚ) ^ 3)) / 300 * 100

/-- Insertion into the `checksum_map` dict: append to the existing group for
the checksum, else append a new group at the end. -/
def group_insert : List (String × List StoredFile) → String → StoredFile →
    List (String × List StoredFile)
  | [], c, f => [(c, [f])]
  | (k, g) :: rest, c, f =>
      if k = c then (k, g ++ [f]) :: rest else (k, g) :: group_insert rest c f

/-- The `checksum_map` built by `_find_duplicate_files` over the store in
directory-walk order. -/
def checksum_groups (hash : List Nat → String) (fs : List StoredFile) :
    List (String × List StoredFile) :=
  fs.foldl (fun m f => group_insert m (hash f.contents) f) []

/-- `MCPEnhancedDownloaderAgent._find_duplicate_files`: the checksum groups
with more than one member. -/
def find_duplicate_files (hash : List Nat → String) (fs : List StoredFile) :
    List (List StoredFile) :=
  ((checksum_groups hash fs).map Prod.snd).filter (fun g => decide (1 < g.length))

/-- `MCPEnhancedDownloaderAgent._find_old_files`: the oldest
`int(len * percentage)` files by mtime; called with `percentage = 0.1`,
rendered as the exact `length / 10`. -/
def find_old_files (fs : List StoredFile) : List StoredFile :=
  (fs.mergeSort (fun a b => decide (a.mtime ≤ b.mtime))).take (fs.length / 10)

/-- `file_path.unlink()` on a store: drop the file at the path. -/
def unlink_path : List StoredFile → String → List StoredFile
  | [], _ => []
  | f :: rest, path => if f.path = path then rest else f :: unlink_path rest path

/-- The duplicate-removal loop of `manage_storage`: for each target file,
`stat` then `unlink`; a missing file raises and is skipped.  State:
(store, removed count, freed bytes). -/
def remove_phase (fs0 : List StoredFile) (targets : List StoredFile) :
    List StoredFile × Nat × Nat :=
  targets.foldl (fun st f =>
    match st.1.find? (fun g => g.path = f.path) with
    | some g => (unlink_path st.1 f.path, st.2.1 + 1, st.2.2 + g.contents.length)
    | none => st) (fs0, 0, 0)

/-- The old-file removal loop of `manage_storage`: remove, re-check usage,
stop as soon as usage drops below the threshold; a missing file raises and is
skipped without the usage check. -/
def old_files_loop (cleanup_threshold : ℚ) :
    List StoredFile → List StoredFile → Nat → Nat → List StoredFile × Nat × Nat
  | fs, [], removed, freed => (fs, removed, freed)
  | fs, f :: rest, removed, freed =>
      match fs.find? (fun g => g.path = f.path) with
      | some g =>
          let fs1 := unlink_path fs f.path
          if usage_percentage fs1 < cleanup_threshold * 100 then
            (fs1, removed + 1, freed + g.contents.length)
          else old_files_loop cleanup_threshold fs1 rest (removed + 1)
            (freed + g.contents.length)
      | none => old_files_loop cleanup_threshold fs rest removed freed

/-- The duplicate targets: `dup_group[1:]` for every duplicate group. -/
def dedup_targets (hash : List Nat → String) (fs : List StoredFile) : List StoredFile :=
  ((find_duplicate_files hash fs).map (fun g => g.tail)).flatten

/-- Analysis helper: the group stored in the `checksum_map` under a key. -/
def groups_lookup (m : List (String × List StoredFile)) (c : String) : List StoredFile :=
  match m.find? (fun p => p.1 = c) with
  | some p => p.2
  | none => []

structure CleanupReport where
  cleanup_needed : Bool
  removed_duplicates : Nat := 0
  removed_old_files : Nat := 0
  freed_space_bytes : Nat := 0
  final_usage_percentage : ℚ := 0
deriving DecidableEq

/-- `MCPEnhancedDownloaderAgent.manage_storage` over the store of ".pdf"
files; `freed_space_bytes` is the `freed_space` accumulator (reported by the
code as GB after division by `1024 ** 3`). -/
def manage_storage (hash : List Nat → String) (cleanup_threshold : ℚ)
    (fs : List StoredFile) : CleanupReport × List StoredFile :=
  if usage_percentage fs < cleanup_threshold * 100 then
    ({ cleanup_needed := false, final_usage_percentage := usage_percentage fs }, fs)
  else
    let old_files := find_old_files fs
    let d := remove_phase fs (dedup_targets hash fs)
    let o :=
      if cleanup_threshold * 100 ≤ usage_percentage d.1 then
        old_files_loop cleanup_threshold d.1 old_files 0 0
      else (d.1, 0, 0)
    ({ cleanup_needed := true, removed_duplicates := d.2.1,
        removed_old_files := o.2.1, freed_space_bytes := d.2.2 + o.2.2,
        final_usage_percentage := usage_percentage o.1 }, o.1)

/-! ## Helper lemmas: association-list bookkeeping for the pool -/

namespace Pool

theorem find?_agent_none {l : List AgentConnectionInfo} {agent_id : String}
    (h : l.find? (fun a => a.agent_id = agent_id) = none) :
    ∀ a ∈ l, ¬ a.agent_id = agent_id := by
  induction l with
  | nil => simp
  | cons b rest ih =>
      intro a ha
      rcases List.mem_cons.mp ha with ha | ha
      · subst ha
        intro he
        rw [List.find?_cons_of_pos _ (by simpa using he)] at h
        simp at h
      · by_cases hb : b.agent_id = agent_id
        · rw [List.find?_cons_of_pos _ (by simpa using hb)] at h
          simp at h
        · rw [List.find?_cons_of_neg _ (by simpa using hb)] at h
          exact ih h a ha

theorem find?_of_mem_nodup {l : List AgentConnectionInfo} {a : AgentConnectionInfo}
    (hn : (keys_of l).Nodup) (ha : a ∈ l) :
    l.find? (fun x => x.agent_id = a.agent_id) = some a := by
  induction l with
  | nil => simp at ha
  | cons b rest ih =>
      rw [keys_of, List.map_cons, List.nodup_cons] at hn
      rcases List.mem_cons.mp ha with ha | ha
      · subst ha
        exact List.find?_cons_of_pos _ (by simp)
      · have hb : ¬ b.agent_id = a.agent_id := by
          intro he
          exact hn.1 (he ▸ List.mem_map_of_mem _ ha)
        rw [List.find?_cons_of_neg _ (by simpa using hb)]
        exact ih hn.2 ha

theorem keys_update {l : List AgentConnectionInfo} {agent_id : String}
    {f : AgentConnectionInfo → AgentConnectionInfo}
    (hf : ∀ a, (f a).agent_id = a.agent_id) :
    keys_of (update_agent l agent_id f) = keys_of l := by
  induction l with
  | nil => rfl
  | cons b rest ih =>
      simp only [update_agent, keys_of, List.map_cons] at *
      by_cases hb : b.agent_id = agent_id
      · simp only [hb, if_true, hf]
        rw [ih]
      · simp only [hb, if_false]
        rw [ih]

theorem find?_update_self {l : List AgentConnectionInfo} {agent_id : String}
    {f : AgentConnectionInfo → AgentConnectionInfo}
    (hf : ∀ a, (f a).agent_id = a.agent_id) :
    (update_agent l agent_id f).find? (fun x => x.agent_id = agent_id) =
      (l.find? (fun x => x.agent_id = agent_id)).map f := by
  induction l with
  | nil => rfl
  | cons b rest ih =>
      simp only [update_agent, List.map_cons]
      by_cases hb : b.agent_id = agent_id
      · rw [if_pos hb, List.find?_cons_of_pos _ (by simp [hf, hb]),
          List.find?_cons_of_pos _ (by simp [hb])]
        simp
      · rw [if_neg hb, List.find?_cons_of_neg _ (by simpa using hb),
          List.find?_cons_of_neg _ (by simpa using hb)]
        exact ih

theorem find?_update_other {l : List AgentConnectionInfo} {agent_id k : String}
    {f : AgentConnectionInfo → AgentConnectionInfo}
    (hf : ∀ a, (f a).agent_id = a.agent_id) (hk : ¬ k = agent_id) :
    (update_agent l agent_id f).find? (fun x => x.agent_id = k) =
      l.find? (fun x => x.agent_id = k) := by
  induction l with
  | nil => rfl
  | cons b rest ih =>
      simp only [update_agent, List.map_cons]
      by_cases hb : b.agent_id = agent_id
      · have h1 : ¬ (f b).agent_id = k := by
          rw [hf, hb]; intro he; exact hk he.symm
        have h2 : ¬ b.agent_id = k := by
          rw [hb]; intro he; exact hk he.symm
        rw [if_pos hb, List.find?_cons_of_neg _ (by simpa using h1),
          List.find?_cons_of_neg _ (by simpa using h2)]
        exact ih
      · rw [if_neg hb]
        by_cases hbk : b.agent_id = k
        · rw [List.find?_cons_of_pos _ (by simpa using hbk),
            List.find?_cons_of_pos _ (by simpa using hbk)]
        · rw [List.find?_cons_of_neg _ (by simpa using hbk),
            List.find?_cons_of_neg _ (by simpa using hbk)]
          exact ih

theorem mem_update_of_ne {l : List AgentConnectionInfo} {agent_id : String}
    {f : AgentConnectionInfo → AgentConnectionInfo} {b : AgentConnectionInfo}
    (hb : b ∈ l) (hne : ¬ b.agent_id = agent_id) :
    b ∈ update_agent l agent_id f := by
  have he : b = (fun a => if a.agent_id = agent_id then f a else a) b := by simp [hne]
  rw [update_agent]
  exact he ▸ List.mem_map_of_mem _ hb

theorem mem_of_mem_update {l : List AgentConnectionInfo} {agent_id : String}
    {f : AgentConnectionInfo → AgentConnectionInfo} {b : AgentConnectionInfo}
    (hb : b ∈ update_agent l agent_id f) :
    (b ∈ l ∧ ¬ b.agent_id = agent_id) ∨ ∃ a, a ∈ l ∧ a.agent_id = agent_id ∧ b = f a := by
  rw [update_agent] at hb
  rcases List.mem_map.mp hb with ⟨a, ha, he⟩
  by_cases hk : a.agent_id = agent_id
  · right
    refine ⟨a, ha, hk, ?_⟩
    simp only [hk, if_true] at he
    exact he.symm
  · left
    simp only [hk, if_false] at he
    exact ⟨he ▸ ha, he ▸ hk⟩

theorem sum_counts_update {l : List AgentConnectionInfo} {agent_id : String}
    {f : AgentConnectionInfo → AgentConnectionInfo} {a : AgentConnectionInfo}
    (hn : (keys_of l).Nodup)
    (h : l.find? (fun x => x.agent_id = agent_id) = some a) :
    sum_counts (update_agent l agent_id f) + a.connection_count =
      sum_counts l + (f a).connection_count := by
  induction l with
  | nil => simp at h
  | cons b rest ih =>
      rw [keys_of, List.map_cons, List.nodup_cons] at hn
      by_cases hb : b.agent_id = agent_id
      · rw [List.find?_cons_of_pos _ (by simpa using hb)] at h
        have hba : b = a := by simpa using h
        subst hba
        have hnotin : ∀ x ∈ rest, ¬ x.agent_id = agent_id := by
          intro x hx he
          exact hn.1 (hb ▸ he ▸ List.mem_map_of_mem _ hx)
        have hrest : update_agent rest agent_id f = rest := by
          rw [update_agent]
          have : ∀ x ∈ rest, (if x.agent_id = agent_id then f x else x) = x := by
            intro x hx
            simp [hnotin x hx]
          rw [List.map_congr_left this]
          exact List.map_id rest
        simp only [update_agent, List.map_cons, hb, if_true, sum_counts, List.sum_cons]
        rw [show List.map (fun x => if x.agent_id = agent_id then f x else x) rest =
          update_agent rest agent_id f from rfl, hrest]
        omega
      · rw [List.find?_cons_of_neg _ (by simpa using hb)] at h
        have := ih hn.2 h
        simp only [update_agent, sum_counts, List.map_cons, List.sum_cons, hb, if_false] at *
        omega

theorem map_fst_set_conns {cs : List (String × List Nat)} {agent_id : String}
    {v : List Nat} :
    (set_conns cs agent_id v).map Prod.fst = cs.map Prod.fst := by
  induction cs with
  | nil => rfl
  | cons p rest ih =>
      simp only [set_conns, List.map_cons] at *
      by_cases hp : p.1 = agent_id
      · simp only [hp, if_true]
        rw [ih]
      · simp only [hp, if_false]
        rw [ih]

theorem find?_set_conns_self {cs : List (String × List Nat)} {agent_id : String}
    {v : List Nat} {p0 : String × List Nat}
    (h : cs.find? (fun p => p.1 = agent_id) = some p0) :
    (set_conns cs agent_id v).find? (fun p => p.1 = agent_id) = some (agent_id, v) := by
  induction cs with
  | nil => simp at h
  | cons p rest ih =>
      simp only [set_conns, List.map_cons]
      by_cases hp : p.1 = agent_id
      · rw [if_pos hp]
        rw [List.find?_cons_of_pos _ (by simpa using hp)]
        simp [hp]
      · rw [if_neg hp, List.find?_cons_of_neg _ (by simpa using hp)]
        rw [List.find?_cons_of_neg _ (by simpa using hp)] at h
        exact ih h

theorem lookup_conns_set_self {cs : List (String × List Nat)} {agent_id : String}
    {v : List Nat} (h : (cs.find? (fun p => p.1 = agent_id)).isSome) :
    lookup_conns (set_conns cs agent_id v) agent_id = v := by
  rcases Option.isSome_iff_exists.mp h with ⟨p0, hp0⟩
  rw [lookup_conns, find?_set_conns_self hp0]

theorem find?_set_conns_other {cs : List (String × List Nat)} {agent_id k : String}
    {v : List Nat} (hk : ¬ k = agent_id) :
    (set_conns cs agent_id v).find? (fun p => p.1 = k) =
      cs.find? (fun p => p.1 = k) := by
  induction cs with
  | nil => rfl
  | cons p rest ih =>
      simp only [set_conns, List.map_cons]
      by_cases hp : p.1 = agent_id
      · have h2 : ¬ p.1 = k := by
          rw [hp]; intro he; exact hk he.symm
        rw [if_pos hp, List.find?_cons_of_neg _ (by simpa using h2),
          List.find?_cons_of_neg _ (by simpa using h2)]
        exact ih
      · rw [if_neg hp]
        by_cases hpk : p.1 = k
        · rw [List.find?_cons_of_pos _ (by simpa using hpk),
            List.find?_cons_of_pos _ (by simpa using hpk)]
        · rw [List.find?_cons_of_neg _ (by simpa using hpk),
            List.find?_cons_of_neg _ (by simpa using hpk)]
          exact ih

theorem lookup_conns_set_other {cs : List (String × List Nat)} {agent_id k : String}
    {v : List Nat} (hk : ¬ k = agent_id) :
    lookup_conns (set_conns cs agent_id v) k = lookup_conns cs k := by
  rw [lookup_conns, lookup_conns, find?_set_conns_other hk]

theorem set_conns_of_absent {cs : List (String × List Nat)} {agent_id : String}
    {v : List Nat} (h : cs.find? (fun p => p.1 = agent_id) = none) :
    set_conns cs agent_id v = cs := by
  induction cs with
  | nil => rfl
  | cons p rest ih =>
      by_cases hp : p.1 = agent_id
      · rw [List.find?_cons_of_pos _ (by simpa using hp)] at h
        simp at h
      · rw [List.find?_cons_of_neg _ (by simpa using hp)] at h
        simp only [set_conns, List.map_cons, hp, if_false]
        rw [show List.map (fun p => if p.1 = agent_id then (p.1, v) else p) rest =
          set_conns rest agent_id v from rfl, ih h]

theorem lookup_conns_eq_of_find? {cs : List (String × List Nat)}
    {agent_id : String} {p : String × List Nat}
    (h : cs.find? (fun q => q.1 = agent_id) = some p) :
    lookup_conns cs agent_id = p.2 := by
  rw [lookup_conns, h]

theorem erase_agent_sublist (l : List AgentConnectionInfo) (agent_id : String) :
    (erase_agent_key l agent_id).Sublist l := by
  induction l with
  | nil => simp [erase_agent_key]
  | cons b rest ih =>
      rw [erase_agent_key]
      by_cases hb : b.agent_id = agent_id
      · rw [if_pos hb]
        exact List.sublist_cons_self b rest
      · rw [if_neg hb]
        exact List.Sublist.cons₂ b ih

theorem erase_conn_sublist (cs : List (String × List Nat)) (agent_id : String) :
    (erase_conn_key cs agent_id).Sublist cs := by
  induction cs with
  | nil => simp [erase_conn_key]
  | cons p rest ih =>
      rw [erase_conn_key]
      by_cases hp : p.1 = agent_id
      · rw [if_pos hp]
        exact List.sublist_cons_self p rest
      · rw [if_neg hp]
        exact List.Sublist.cons₂ p ih

theorem erase_agent_of_absent {l : List AgentConnectionInfo} {agent_id : String}
    (h : l.find? (fun a => a.agent_id = agent_id) = none) :
    erase_agent_key l agent_id = l := by
  induction l with
  | nil => rfl
  | cons b rest ih =>
      by_cases hb : b.agent_id = agent_id
      · rw [List.find?_cons_of_pos _ (by simpa using hb)] at h
        simp at h
      · rw [List.find?_cons_of_neg _ (by simpa using hb)] at h
        rw [erase_agent_key, if_neg hb, ih h]

theorem keys_erase_pair {l : List AgentConnectionInfo} {cs : List (String × List Nat)}
    {agent_id : String} (h : cs.map Prod.fst = keys_of l) :
    (erase_conn_key cs agent_id).map Prod.fst = keys_of (erase_agent_key l agent_id) := by
  induction cs generalizing l with
  | nil =>
      cases l with
      | nil => rfl
      | cons b rest => simp [keys_of] at h
  | cons p rest ih =>
      cases l with
      | nil => simp [keys_of] at h
      | cons b lrest =>
          simp only [keys_of, List.map_cons, List.cons.injEq] at h
          rw [erase_conn_key, erase_agent_key]
          by_cases hp : p.1 = agent_id
          · rw [if_pos hp, if_pos (h.1 ▸ hp)]
            simpa [keys_of] using h.2
          · rw [if_neg hp, if_neg (fun hb => hp (h.1 ▸ hb))]
            simp only [keys_of, List.map_cons]
            rw [h.1, ih (by simpa [keys_of] using h.2)]
            simp [keys_of]

theorem sum_counts_erase {l : List AgentConnectionInfo} {agent_id : String}
    {a : AgentConnectionInfo}
    (h : l.find? (fun x => x.agent_id = agent_id) = some a) :
    sum_counts (erase_agent_key l agent_id) + a.connection_count = sum_counts l := by
  induction l with
  | nil => simp at h
  | cons b rest ih =>
      by_cases hb : b.agent_id = agent_id
      · rw [List.find?_cons_of_pos _ (by simpa using hb)] at h
        have hba : b = a := by simpa using h
        subst hba
        rw [erase_agent_key, if_pos hb]
        simp [sum_counts]
        omega
      · rw [List.find?_cons_of_neg _ (by simpa using hb)] at h
        rw [erase_agent_key, if_neg hb]
        have := ih h
        simp only [sum_counts, List.map_cons, List.sum_cons] at *
        omega

theorem find?_erase_conn_other {cs : List (String × List Nat)} {agent_id k : String}
    (hk : ¬ k = agent_id) :
    (erase_conn_key cs agent_id).find? (fun p => p.1 = k) =
      cs.find? (fun p => p.1 = k) := by
  induction cs with
  | nil => rfl
  | cons p rest ih =>
      rw [erase_conn_key]
      by_cases hp : p.1 = agent_id
      · have h2 : ¬ p.1 = k := by
          rw [hp]; intro he; exact hk he.symm
        rw [if_pos hp, List.find?_cons_of_neg _ (by simpa using h2)]
      · rw [if_neg hp]
        by_cases hpk : p.1 = k
        · rw [List.find?_cons_of_pos _ (by simpa using hpk),
            List.find?_cons_of_pos _ (by simpa using hpk)]
        · rw [List.find?_cons_of_neg _ (by simpa using hpk),
            List.find?_cons_of_neg _ (by simpa using hpk)]
          exact ih

theorem find?_erase_agent_other {l : List AgentConnectionInfo} {agent_id k : String}
    (hk : ¬ k = agent_id) :
    (erase_agent_key l agent_id).find? (fun a => a.agent_id = k) =
      l.find? (fun a => a.agent_id = k) := by
  induction l with
  | nil => rfl
  | cons b rest ih =>
      rw [erase_agent_key]
      by_cases hb : b.agent_id = agent_id
      · have h2 : ¬ b.agent_id = k := by
          rw [hb]; intro he; exact hk he.symm
        rw [if_pos hb, List.find?_cons_of_neg _ (by simpa using h2)]
      · rw [if_neg hb]
        by_cases hbk : b.agent_id = k
        · rw [List.find?_cons_of_pos _ (by simpa using hbk),
            List.find?_cons_of_pos _ (by simpa using hbk)]
        · rw [List.find?_cons_of_neg _ (by simpa using hbk),
            List.find?_cons_of_neg _ (by simpa using hbk)]
          exact ih

theorem find?_erase_conn_self {cs : List (String × List Nat)} {agent_id : String}
    (hn : (cs.map Prod.fst).Nodup) :
    (erase_conn_key cs agent_id).find? (fun p => p.1 = agent_id) = none := by
  induction cs with
  | nil => rfl
  | cons p rest ih =>
      rw [List.map_cons, List.nodup_cons] at hn
      rw [erase_conn_key]
      by_cases hp : p.1 = agent_id
      · rw [if_pos hp]
        rw [List.find?_eq_none]
        intro q hq hqk
        apply hn.1
        rw [hp]
        have : q.1 = agent_id := by simpa using hqk
        exact this ▸ List.mem_map_of_mem _ hq
      · rw [if_neg hp, List.find?_cons_of_neg _ (by simpa using hp)]
        exact ih hn.2

theorem find?_erase_agent_self {l : List AgentConnectionInfo} {agent_id : String}
    (hn : (keys_of l).Nodup) :
    (erase_agent_key l agent_id).find? (fun a => a.agent_id = agent_id) = none := by
  induction l with
  | nil => rfl
  | cons b rest ih =>
      rw [keys_of, List.map_cons, List.nodup_cons] at hn
      rw [erase_agent_key]
      by_cases hb : b.agent_id = agent_id
      · rw [if_pos hb]
        rw [List.find?_eq_none]
        intro a ha hak
        apply hn.1
        rw [hb]
        have : a.agent_id = agent_id := by simpa using hak
        exact this ▸ List.mem_map_of_mem _ ha
      · rw [if_neg hb, List.find?_cons_of_neg _ (by simpa using hb)]
        exact ih hn.2

theorem find?_conn_none_of_not_mem_keys {cs : List (String × List Nat)} {k : String}
    (h : k ∉ cs.map Prod.fst) : cs.find? (fun p => p.1 = k) = none := by
  rw [List.find?_eq_none]
  intro p hp hpk
  exact h ((by simpa using hpk : p.1 = k) ▸ List.mem_map_of_mem _ hp)

theorem find?_conn_isSome_of_mem_keys {cs : List (String × List Nat)} {k : String}
    (h : k ∈ cs.map Prod.fst) : (cs.find? (fun p => p.1 = k)).isSome = true := by
  rw [List.find?_isSome]
  rcases List.mem_map.mp h with ⟨p, hp, he⟩
  exact ⟨p, hp, by simpa using he⟩

theorem find?_agent_isSome_of_mem_keys {l : List AgentConnectionInfo} {k : String}
    (h : k ∈ keys_of l) : (l.find? (fun a => a.agent_id = k)).isSome = true := by
  rw [List.find?_isSome]
  rcases List.mem_map.mp h with ⟨a, ha, he⟩
  exact ⟨a, ha, by simpa using he⟩

theorem lookup_conns_append_of_ne {cs : List (String × List Nat)} {k agent_id : String}
    {v : List Nat} (hk : ¬ k = agent_id) :
    lookup_conns (cs ++ [(agent_id, v)]) k = lookup_conns cs k := by
  rcases hf : cs.find? (fun p => p.1 = k) with _ | p
  · rw [lookup_conns, lookup_conns, List.find?_append, hf,
      List.find?_cons_of_neg _ (by simpa using fun he => hk he.symm)]
    simp [Option.or]
  · rw [lookup_conns, lookup_conns, List.find?_append, hf]
    simp [Option.or]

theorem lookup_conns_append_self {cs : List (String × List Nat)} {agent_id : String}
    {v : List Nat} (h : cs.find? (fun p => p.1 = agent_id) = none) :
    lookup_conns (cs ++ [(agent_id, v)]) agent_id = v := by
  rw [lookup_conns, List.find?_append, h]
  simp only [Option.or]
  rw [List.find?_cons_of_pos _ (by simp)]

theorem mem_erase_agent {l : List AgentConnectionInfo} {agent_id : String}
    {b : AgentConnectionInfo} (hn : (keys_of l).Nodup)
    (hb : b ∈ erase_agent_key l agent_id) :
    b ∈ l ∧ ¬ b.agent_id = agent_id := by
  refine ⟨(erase_agent_sublist l agent_id).mem hb, ?_⟩
  intro he
  have hnone := @find?_erase_agent_self l agent_id hn
  rw [List.find?_eq_none] at hnone
  exact hnone b hb (by simpa using he)

theorem agents_eq_of_same_key {l : List AgentConnectionInfo}
    {a b : AgentConnectionInfo} (hn : (keys_of l).Nodup)
    (ha : a ∈ l) (hb : b ∈ l) (he : a.agent_id = b.agent_id) : a = b := by
  have h1 := find?_of_mem_nodup hn ha
  have h2 := find?_of_mem_nodup hn hb
  rw [he] at h1
  rw [h1] at h2
  exact (Option.some.injEq _ _ ▸ h2 : a = b)

theorem sum_counts_append (l l2 : List AgentConnectionInfo) :
    sum_counts (l ++ l2) = sum_counts l + sum_counts l2 := by
  simp [sum_counts]

/-- Shape of a successful registration. -/
theorem register_spec {s : PoolState} {agent_id agent_type : String}
    {max_connections priority : Option Nat} {now : Int}
    (hf : s.agents.find? (fun a => a.agent_id = agent_id) = none) :
    ∃ info : AgentConnectionInfo, info.agent_id = agent_id ∧
      info.connection_count = 0 ∧
      (register_agent s agent_id agent_type max_connections priority now).2 =
        { s with agents := s.agents ++ [info]
                 connections := s.connections ++ [(agent_id, [])] } := by
  rw [register_agent, if_neg (by simp [hf])]
  exact ⟨_, rfl, rfl, rfl⟩

/-- `register_agent` preserves the pool invariant. -/
theorem inv_register (s : PoolState) (agent_id agent_type : String)
    (max_connections priority : Option Nat) (now : Int) (h : PoolInv s) :
    PoolInv (register_agent s agent_id agent_type max_connections priority now).2 := by
  obtain ⟨h1, h2, h3, h4, h5, h6⟩ := h
  rcases hf : s.agents.find? (fun a => a.agent_id = agent_id) with _ | a
  · have hnotin : agent_id ∉ keys_of s.agents := by
      intro hk
      have := find?_agent_isSome_of_mem_keys hk
      rw [hf] at this
      simp at this
    have hcs_none : s.connections.find? (fun p => p.1 = agent_id) = none :=
      find?_conn_none_of_not_mem_keys (by rw [h2]; exact hnotin)
    obtain ⟨info, hik, hic, hs2⟩ :=
      @register_spec s agent_id agent_type max_connections priority now hf
    rw [hs2]
    refine ⟨?_, ?_, ?_, ?_, ?_, ?_⟩
    · simp only [keys_of, List.map_append, List.map_cons, List.map_nil, hik]
      rw [List.nodup_append]
      refine ⟨h1, by simp, ?_⟩
      intro x hx hx2
      simp only [List.mem_singleton] at hx2
      exact hnotin (hx2 ▸ hx)
    · simp only [List.map_append, keys_of, List.map_cons, List.map_nil, hik]
      rw [show s.connections.map Prod.fst = keys_of s.agents from h2]
      rfl
    · intro b hb
      rcases List.mem_append.mp hb with hb | hb
      · have hbk : ¬ b.agent_id = agent_id := by
          intro he
          exact hnotin (he ▸ List.mem_map_of_mem _ hb)
        rw [lookup_conns_append_of_ne hbk]
        exact h3 b hb
      · simp only [List.mem_singleton] at hb
        subst hb
        rw [hik, lookup_conns_append_self hcs_none, hic]
        rfl
    · rw [sum_counts_append]
      simpa [sum_counts, hic] using h4
    · exact h5
    · intro b hb
      rcases List.mem_append.mp hb with hb | hb
      · exact h6 b hb
      · simp only [List.mem_singleton] at hb
        subst hb
        rw [hic]
        exact Nat.zero_le _
  · rw [register_agent, if_pos (by simp [hf])]
    exact ⟨h1, h2, h3, h4, h5, h6⟩

theorem preempt_key_le_refl (a : AgentConnectionInfo) : preempt_key_le a a = true := by
  simp [preempt_key_le]

theorem preempt_key_le_trans (a b c : AgentConnectionInfo)
    (h1 : preempt_key_le a b = true) (h2 : preempt_key_le b c = true) :
    preempt_key_le a c = true := by
  simp only [preempt_key_le, decide_eq_true_eq] at *
  omega

theorem preempt_key_le_total (a b : AgentConnectionInfo) :
    (preempt_key_le a b || preempt_key_le b a) = true := by
  simp only [preempt_key_le, Bool.or_eq_true, decide_eq_true_eq]
  omega

/-- All the ways `_try_free_connections_for_agent` can fail leave the state
untouched. -/
theorem try_free_false_state (s : PoolState) (agent_id : String)
    (h : (try_free_connections_for_agent s agent_id).1 = false) :
    (try_free_connections_for_agent s agent_id).2 = s := by
  rcases hf : s.agents.find? (fun a => a.agent_id = agent_id) with _ | req
  · simp [try_free_connections_for_agent, hf]
  · rcases hms : (candidate_agents s agent_id req).mergeSort preempt_key_le with
      _ | ⟨victim, rest⟩
    · simp [try_free_connections_for_agent, hf, hms]
    · rcases hlc : lookup_conns s.connections victim.agent_id with _ | ⟨c, crest⟩
      · simp [try_free_connections_for_agent, hf, hms, hlc]
      · simp [try_free_connections_for_agent, hf, hms, hlc] at h

/-- Full characterisation of `_try_free_connections_for_agent` for a
registered requester, assuming the per-agent connection lists have the
recorded lengths: with no candidate it fails without mutating anything; with
candidates it evicts a minimal candidate under `(priority, last_activity)`,
dropping the head (oldest) of its connection list and decrementing both its
counter and the pool counter by one. -/
theorem try_free_spec (s : PoolState) (agent_id : String)
    (req : AgentConnectionInfo)
    (hreq : s.agents.find? (fun a => a.agent_id = agent_id) = some req)
    (hlen : ∀ a ∈ s.agents, (lookup_conns s.connections a.agent_id).length = a.connection_count) :
    (candidate_agents s agent_id req = [] →
      try_free_connections_for_agent s agent_id = (false, s)) ∧
    (candidate_agents s agent_id req ≠ [] → ∃ victim,
      victim ∈ candidate_agents s agent_id req ∧
      (∀ c ∈ candidate_agents s agent_id req, preempt_key_le victim c = true) ∧
      1 < victim.connection_count ∧
      try_free_connections_for_agent s agent_id = (true,
        { s with
          connections := set_conns s.connections victim.agent_id
            ((lookup_conns s.connections victim.agent_id).tail)
          agents := update_agent s.agents victim.agent_id
            (fun a => { a with connection_count := a.connection_count - 1 })
          active_connections := s.active_connections - 1 })) := by
  constructor
  · intro hempty
    simp [try_free_connections_for_agent, hreq, hempty, List.mergeSort_nil]
  · intro hne
    rcases hms : (candidate_agents s agent_id req).mergeSort preempt_key_le with
      _ | ⟨victim, rest⟩
    · exfalso
      apply hne
      have := @List.length_mergeSort _ preempt_key_le (candidate_agents s agent_id req)
      rw [hms] at this
      exact List.length_eq_zero.mp this.symm
    · have hvmem : victim ∈ candidate_agents s agent_id req := by
        have : victim ∈ (candidate_agents s agent_id req).mergeSort preempt_key_le := by
          rw [hms]; exact List.mem_cons_self _ _
        exact (List.mergeSort_perm (candidate_agents s agent_id req) preempt_key_le).mem_iff.mp this
      have hmin : ∀ c ∈ candidate_agents s agent_id req, preempt_key_le victim c = true := by
        intro c hc
        have hcms : c ∈ (candidate_agents s agent_id req).mergeSort preempt_key_le :=
          (List.mergeSort_perm (candidate_agents s agent_id req) preempt_key_le).mem_iff.mpr hc
        rw [hms] at hcms
        rcases List.mem_cons.mp hcms with hcv | hcr
        · rw [hcv]; exact preempt_key_le_refl victim
        · have hsorted := @List.sorted_mergeSort _ preempt_key_le
            preempt_key_le_trans preempt_key_le_total
            (candidate_agents s agent_id req)
          rw [hms, List.pairwise_cons] at hsorted
          exact hsorted.1 c hcr
      have hvfilter := List.mem_filter.mp hvmem
      have hvcount : 1 < victim.connection_count := by
        have := hvfilter.2
        simp only [decide_eq_true_eq] at this
        exact this.2.2
      have hvina : victim ∈ s.agents := hvfilter.1
      have hlenv := hlen victim hvina
      rcases hlc : lookup_conns s.connections victim.agent_id with _ | ⟨c0, crest⟩
      · exfalso
        rw [hlc] at hlenv
        simp at hlenv
        omega
      · refine ⟨victim, hvmem, hmin, hvcount, ?_⟩
        simp only [try_free_connections_for_agent, hreq, hms, hlc, List.tail_cons]

theorem victim_ne_requester {s : PoolState} {agent_id : String}
    {req victim : AgentConnectionInfo}
    (hvmem : victim ∈ candidate_agents s agent_id req) :
    ¬ victim.agent_id = agent_id := by
  have := (List.mem_filter.mp hvmem).2
  simp only [decide_eq_true_eq] at this
  exact this.1

/-- `_try_free_connections_for_agent` preserves the pool invariant. -/
theorem inv_try_free (s : PoolState) (agent_id : String) (h : PoolInv s) :
    PoolInv (try_free_connections_for_agent s agent_id).2 := by
  obtain ⟨h1, h2, h3, h4, h5, h6⟩ := h
  cases hb : (try_free_connections_for_agent s agent_id).1
  · rw [try_free_false_state s agent_id hb]
    exact ⟨h1, h2, h3, h4, h5, h6⟩
  · rcases hf : s.agents.find? (fun a => a.agent_id = agent_id) with _ | req
    · rw [try_free_connections_for_agent] at hb
      simp [hf] at hb
    · have hspec := try_free_spec s agent_id req hf h3
      by_cases hemp : candidate_agents s agent_id req = []
      · rw [hspec.1 hemp] at hb
        simp at hb
      · obtain ⟨victim, hvmem, hmin, hvcount, heq⟩ := hspec.2 hemp
        rw [heq]
        have hvina : victim ∈ s.agents := (List.mem_filter.mp hvmem).1
        have hkv : s.agents.find? (fun x => x.agent_id = victim.agent_id) = some victim :=
          find?_of_mem_nodup h1 hvina
        have hf_pres : ∀ a : AgentConnectionInfo,
            ({ a with connection_count := a.connection_count - 1 }).agent_id = a.agent_id :=
          fun _ => rfl
        have hlenv := h3 victim hvina
        have hpresent : (s.connections.find? (fun p => p.1 = victim.agent_id)).isSome = true :=
          find?_conn_isSome_of_mem_keys (by rw [h2]; exact List.mem_map_of_mem _ hvina)
        refine ⟨?_, ?_, ?_, ?_, ?_, ?_⟩
        · rw [show ({ s with
              connections := set_conns s.connections victim.agent_id
                ((lookup_conns s.connections victim.agent_id).tail)
              agents := update_agent s.agents victim.agent_id
                (fun a => { a with connection_count := a.connection_count - 1 })
              active_connections := s.active_connections - 1 } : PoolState).agents =
            update_agent s.agents victim.agent_id
              (fun a => { a with connection_count := a.connection_count - 1 }) from rfl]
          rw [keys_update hf_pres]
          exact h1
        · rw [show ({ s with
              connections := set_conns s.connections victim.agent_id
                ((lookup_conns s.connections victim.agent_id).tail)
              agents := update_agent s.agents victim.agent_id
                (fun a => { a with connection_count := a.connection_count - 1 })
              active_connections := s.active_connections - 1 } : PoolState).connections =
            set_conns s.connections victim.agent_id
              ((lookup_conns s.connections victim.agent_id).tail) from rfl]
          rw [map_fst_set_conns, keys_update hf_pres]
          exact h2
        · intro b hb2
          rcases mem_of_mem_update hb2 with ⟨hbl, hbne⟩ | ⟨a, hal, hak, hbfa⟩
          · rw [lookup_conns_set_other hbne]
            exact h3 b hbl
          · have hav : a = victim :=
              agents_eq_of_same_key h1 hal hvina (by rw [hak])
            subst hav
            subst hbfa
            rw [lookup_conns_set_self hpresent]
            rw [List.length_tail, hlenv]
        · have hsum := @sum_counts_update _ _
            (fun a => { a with connection_count := a.connection_count - 1 }) _ h1 hkv

          simp only [] at hsum ⊢
          omega
        · simp only []
          omega
        · intro b hb2
          rcases mem_of_mem_update hb2 with ⟨hbl, _⟩ | ⟨a, hal, hak, hbfa⟩
          · exact h6 b hbl
          · subst hbfa
            have := h6 a hal
            simp only []
            omega

/-- All the ways `_can_create_connection` can report failure leave the state
untouched. -/
theorem can_create_false_state (s : PoolState) (agent_id : String)
    (h : (can_create_connection s agent_id).1 = false) :
    (can_create_connection s agent_id).2 = s := by
  rcases hf : s.agents.find? (fun a => a.agent_id = agent_id) with _ | a
  · simp [can_create_connection, hf]
  · rw [can_create_connection, hf] at h ⊢
    by_cases hmax : a.max_connections ≤ a.connection_count
    · simp [hmax]
    · by_cases hcap : (s.total_max_connections : Int) ≤ s.active_connections
      · simp only [hmax, if_false, hcap, if_true] at h ⊢
        exact try_free_false_state s agent_id h
      · simp [hmax, hcap] at h

/-- The connection-creation bookkeeping of `get_connection` preserves the
invariant, for a registered agent below its own cap when the pool is below
the global cap. -/
theorem inv_acquire_update (s1 : PoolState) (agent_id : String) (conn_id : Nat)
    (now : Int) (a : AgentConnectionInfo) (h : PoolInv s1)
    (hfa : s1.agents.find? (fun x => x.agent_id = agent_id) = some a)
    (hcnt : a.connection_count < a.max_connections)
    (hroom : s1.active_connections < (s1.total_max_connections : Int)) :
    PoolInv { s1 with
      connections := set_conns s1.connections agent_id
        (lookup_conns s1.connections agent_id ++ [conn_id])
      agents := update_agent s1.agents agent_id
        (fun x => { x with connection_count := x.connection_count + 1, last_activity := now })
      active_connections := s1.active_connections + 1 } := by
  obtain ⟨h1, h2, h3, h4, h5, h6⟩ := h
  have hamem : a ∈ s1.agents := List.mem_of_find?_eq_some hfa
  have hakey : a.agent_id = agent_id := by
    have := List.find?_some hfa
    simpa using this
  have hf_pres : ∀ x : AgentConnectionInfo,
      ({ x with connection_count := x.connection_count + 1, last_activity := now }).agent_id = x.agent_id := fun _ => rfl
  have hpresent : (s1.connections.find? (fun p => p.1 = agent_id)).isSome = true :=
    find?_conn_isSome_of_mem_keys (by rw [h2]; exact hakey ▸ List.mem_map_of_mem _ hamem)
  refine ⟨?_, ?_, ?_, ?_, ?_, ?_⟩
  · rw [show ({ s1 with
        connections := set_conns s1.connections agent_id
          (lookup_conns s1.connections agent_id ++ [conn_id])
        agents := update_agent s1.agents agent_id
          (fun x => { x with connection_count := x.connection_count + 1, last_activity := now })
        active_connections := s1.active_connections + 1 } : PoolState).agents =
      update_agent s1.agents agent_id
        (fun x => { x with connection_count := x.connection_count + 1, last_activity := now }) from rfl]
    rw [keys_update hf_pres]
    exact h1
  · rw [show ({ s1 with
        connections := set_conns s1.connections agent_id
          (lookup_conns s1.connections agent_id ++ [conn_id])
        agents := update_agent s1.agents agent_id
          (fun x => { x with connection_count := x.connection_count + 1, last_activity := now })
        active_connections := s1.active_connections + 1 } : PoolState).connections =
      set_conns s1.connections agent_id
        (lookup_conns s1.connections agent_id ++ [conn_id]) from rfl]
    rw [map_fst_set_conns, keys_update hf_pres]
    exact h2
  · intro b hb2
    rcases mem_of_mem_update hb2 with ⟨hbl, hbne⟩ | ⟨x, hxl, hxk, hbfx⟩
    · rw [lookup_conns_set_other hbne]
      exact h3 b hbl
    · have hxa : x = a :=
        agents_eq_of_same_key h1 hxl hamem (by rw [hxk, hakey])
      subst hxa
      subst hbfx
      dsimp only []
      rw [hxk, lookup_conns_set_self hpresent, List.length_append]
      have hlen3 := h3 x hxl
      rw [hxk] at hlen3
      simp [hlen3]
  · have hsum := @sum_counts_update _ _
      (fun x => { x with connection_count := x.connection_count + 1, last_activity := now })
      _ h1 hfa
    dsimp only [] at hsum ⊢
    omega
  · dsimp only []
    omega
  · intro b hb2
    rcases mem_of_mem_update hb2 with ⟨hbl, _⟩ | ⟨x, hxl, hxk, hbfx⟩
    · exact h6 b hbl
    · have hxa : x = a :=
        agents_eq_of_same_key h1 hxl hamem (by rw [hxk, hakey])
      subst hxa
      subst hbfx
      dsimp only []
      omega

/-- When preemption succeeds for a registered requester, the requester record
is untouched, the counter drops by one, and the caps and timeout are kept. -/
theorem try_free_true_requester (s : PoolState) (agent_id : String)
    (req : AgentConnectionInfo) (h : PoolInv s)
    (hreq : s.agents.find? (fun a => a.agent_id = agent_id) = some req)
    (htrue : (try_free_connections_for_agent s agent_id).1 = true) :
    ((try_free_connections_for_agent s agent_id).2.agents.find?
        (fun a => a.agent_id = agent_id) = some req) ∧
    (try_free_connections_for_agent s agent_id).2.active_connections =
      s.active_connections - 1 ∧
    (try_free_connections_for_agent s agent_id).2.total_max_connections =
      s.total_max_connections ∧
    (try_free_connections_for_agent s agent_id).2.connection_timeout =
      s.connection_timeout := by
  obtain ⟨h1, h2, h3, h4, h5, h6⟩ := h
  have hspec := try_free_spec s agent_id req hreq h3
  by_cases hemp : candidate_agents s agent_id req = []
  · rw [hspec.1 hemp] at htrue
    simp at htrue
  · obtain ⟨victim, hvmem, _, _, heq⟩ := hspec.2 hemp
    rw [heq]
    have hne := victim_ne_requester hvmem
    refine ⟨?_, rfl, rfl, rfl⟩
    dsimp only []
    rw [@find?_update_other _ _ _
      (fun a => { a with connection_count := a.connection_count - 1 })
      (fun _ => rfl) (fun he => hne (he.symm))]
    exact hreq

/-- The acquire half of `get_connection` preserves the pool invariant. -/
theorem inv_acquire (s : PoolState) (agent_id : String) (conn_id : Nat) (now : Int)
    (h : PoolInv s) : PoolInv (get_connection_acquire s agent_id conn_id now).2 := by
  rcases hfa : s.agents.find? (fun x => x.agent_id = agent_id) with _ | a
  · rw [get_connection_acquire, if_pos (by simp [hfa])]
    exact h
  · rw [get_connection_acquire, if_neg (by simp [hfa])]
    rcases hcc : can_create_connection s agent_id with ⟨b, s1⟩
    cases b
    · show PoolInv s1
      have hb : (can_create_connection s agent_id).1 = false := by rw [hcc]
      have hstate := can_create_false_state s agent_id hb
      rw [hcc] at hstate
      have hstate2 : s1 = s := hstate
      exact hstate2 ▸ h
    · show PoolInv { s1 with
        connections := set_conns s1.connections agent_id
          (lookup_conns s1.connections agent_id ++ [conn_id])
        agents := update_agent s1.agents agent_id
          (fun a => { a with connection_count := a.connection_count + 1, last_activity := now })
        active_connections := s1.active_connections + 1 }
      simp only [can_create_connection, hfa] at hcc
      by_cases hmax : a.max_connections ≤ a.connection_count
      · rw [if_pos hmax] at hcc
        simp at hcc
      · rw [if_neg hmax] at hcc
        by_cases hcap : (s.total_max_connections : Int) ≤ s.active_connections
        · rw [if_pos hcap] at hcc
          have htrue : (try_free_connections_for_agent s agent_id).1 = true := by
            rw [hcc]
          have hs1 : (try_free_connections_for_agent s agent_id).2 = s1 := by
            rw [hcc]
          have hinv1 : PoolInv s1 := hs1 ▸ inv_try_free s agent_id h
          obtain ⟨hfind1, hact1, htm1, _⟩ := try_free_true_requester s agent_id a h hfa htrue
          rw [hs1] at hfind1 hact1 htm1
          have hroom1 : s1.active_connections < (s1.total_max_connections : Int) := by
            rw [hact1, htm1]
            have h5 : s.active_connections ≤ (s.total_max_connections : Int) :=
              h.2.2.2.2.1
            omega
          exact inv_acquire_update s1 agent_id conn_id now a hinv1 hfind1
            (Nat.lt_of_not_le hmax) hroom1
        · rw [if_neg hcap] at hcc
          have hs1 : s1 = s := by
            have := congrArg Prod.snd hcc
            exact this.symm
          subst hs1
          exact inv_acquire_update s1 agent_id conn_id now a h hfa
            (Nat.lt_of_not_le hmax) (by omega)

/-- The release half of `get_connection` preserves the pool invariant. -/
theorem inv_release (s : PoolState) (agent_id : String) (conn_id : Nat)
    (h : PoolInv s) : PoolInv (release_connection s agent_id conn_id) := by
  obtain ⟨h1, h2, h3, h4, h5, h6⟩ := h
  rw [release_connection]
  by_cases hg : (s.connections.find? (fun p => p.1 = agent_id)).isSome ∧
      conn_id ∈ lookup_conns s.connections agent_id
  · rw [if_pos hg]
    obtain ⟨hpres, hmem⟩ := hg
    have hkeys : agent_id ∈ keys_of s.agents := by
      rw [← h2]
      rcases Option.isSome_iff_exists.mp hpres with ⟨p, hp⟩
      have := List.find?_some hp
      have hp1 : p.1 = agent_id := by simpa using this
      exact hp1 ▸ List.mem_map_of_mem _ (List.mem_of_find?_eq_some hp)
    rcases Option.isSome_iff_exists.mp (find?_agent_isSome_of_mem_keys hkeys) with ⟨a, hfa⟩
    have hamem : a ∈ s.agents := List.mem_of_find?_eq_some hfa
    have hakey : a.agent_id = agent_id := by
      have := List.find?_some hfa
      simpa using this
    have hlena := h3 a hamem
    rw [hakey] at hlena
    have hcount1 : 1 ≤ a.connection_count := by
      rw [← hlena]
      exact List.length_pos.mpr (List.ne_nil_of_mem hmem)
    have hf_pres : ∀ x : AgentConnectionInfo,
        ({ x with connection_count := x.connection_count - 1 }).agent_id = x.agent_id :=
      fun _ => rfl
    have hlenerase : ((lookup_conns s.connections agent_id).erase conn_id).length =
        (lookup_conns s.connections agent_id).length - 1 := by
      rw [List.length_erase]
      simp [hmem]
    refine ⟨?_, ?_, ?_, ?_, ?_, ?_⟩
    · dsimp only []
      rw [keys_update hf_pres]
      exact h1
    · dsimp only []
      rw [map_fst_set_conns, keys_update hf_pres]
      exact h2
    · intro b hb2
      rcases mem_of_mem_update hb2 with ⟨hbl, hbne⟩ | ⟨x, hxl, hxk, hbfx⟩
      · rw [lookup_conns_set_other hbne]
        exact h3 b hbl
      · have hxa : x = a :=
          agents_eq_of_same_key h1 hxl hamem (by rw [hxk, hakey])
        subst hxa
        subst hbfx
        dsimp only []
        rw [hxk, lookup_conns_set_self hpres, hlenerase, hlena]
    · have hsum := @sum_counts_update _ _
        (fun x => { x with connection_count := x.connection_count - 1 }) _ h1 hfa
      dsimp only [] at hsum ⊢
      omega
    · dsimp only []
      omega
    · intro b hb2
      rcases mem_of_mem_update hb2 with ⟨hbl, _⟩ | ⟨x, hxl, hxk, hbfx⟩
      · exact h6 b hbl
      · have hxa : x = a :=
          agents_eq_of_same_key h1 hxl hamem (by rw [hxk, hakey])
        subst hxa
        subst hbfx
        have := h6 x hxl
        dsimp only []
        omega
  · rw [if_neg hg]
    exact ⟨h1, h2, h3, h4, h5, h6⟩

/-- `_close_agent_connections` preserves the pool invariant. -/
theorem inv_close (s : PoolState) (agent_id : String) (h : PoolInv s) :
    PoolInv (close_agent_connections s agent_id) := by
  obtain ⟨h1, h2, h3, h4, h5, h6⟩ := h
  rcases hfc : s.connections.find? (fun p => p.1 = agent_id) with _ | p
  · simp only [close_agent_connections, hfc]
    have hnotin : agent_id ∉ keys_of s.agents := by
      intro hk
      have := @find?_conn_isSome_of_mem_keys s.connections agent_id
        (by rw [h2]; exact hk)
      rw [hfc] at this
      simp at this
    have hfa : s.agents.find? (fun a => a.agent_id = agent_id) = none := by
      rw [List.find?_eq_none]
      intro a ha hak
      exact hnotin ((by simpa using hak : a.agent_id = agent_id) ▸ List.mem_map_of_mem _ ha)
    rw [erase_agent_of_absent hfa]
    exact ⟨h1, h2, h3, h4, h5, h6⟩
  · simp only [close_agent_connections, hfc]
    have hp1 : p.1 = agent_id := by
      have := List.find?_some hfc
      simpa using this
    have hkeys : agent_id ∈ keys_of s.agents := by
      rw [← h2]
      exact hp1 ▸ List.mem_map_of_mem _ (List.mem_of_find?_eq_some hfc)
    rcases Option.isSome_iff_exists.mp (find?_agent_isSome_of_mem_keys hkeys) with ⟨a, hfa⟩
    have hamem : a ∈ s.agents := List.mem_of_find?_eq_some hfa
    have hakey : a.agent_id = agent_id := by
      have := List.find?_some hfa
      simpa using this
    have hlenp : p.2.length = a.connection_count := by
      have := h3 a hamem
      rw [hakey, lookup_conns_eq_of_find? hfc] at this
      exact this
    refine ⟨?_, ?_, ?_, ?_, ?_, ?_⟩
    · exact ((erase_agent_sublist s.agents agent_id).map _).nodup h1
    · exact keys_erase_pair h2
    · intro b hb2
      obtain ⟨hbl, hbne⟩ := mem_erase_agent h1 hb2
      rw [lookup_conns, find?_erase_conn_other hbne, ← lookup_conns]
      exact h3 b hbl
    · have hsum := sum_counts_erase hfa
      dsimp only [] at hsum ⊢
      omega
    · dsimp only []
      have : (0 : Int) ≤ (p.2.length : Int) := by positivity
      omega
    · intro b hb2
      exact h6 b (mem_erase_agent h1 hb2).1

/-- `_cleanup_idle_connections` preserves the pool invariant. -/
theorem inv_cleanup (s : PoolState) (t : Int) (h : PoolInv s) :
    PoolInv (cleanup_idle_connections s t) := by
  rw [cleanup_idle_connections]
  generalize keys_of s.agents = ks
  induction ks generalizing s with
  | nil => exact h
  | cons k rest ih =>
      rw [List.foldl_cons]
      apply ih
      rcases hf : s.agents.find? (fun a => a.agent_id = k) with _ | info
      · simpa only [cleanup_step, hf] using h
      · by_cases hexp : s.connection_timeout < t - info.last_activity
        · simp only [cleanup_step, hf, if_pos hexp]
          exact inv_close s k h
        · simpa only [cleanup_step, hf, if_neg hexp] using h

/-- `shutdown` preserves the pool invariant. -/
theorem inv_shutdown (s : PoolState) (_h : PoolInv s) : PoolInv (shutdown_pool s) := by
  rw [shutdown_pool]
  refine ⟨by simp [keys_of], by simp [keys_of], by simp, ?_, ?_, by simp⟩
  · simp [sum_counts]
  · dsimp only []
    positivity

/-- Every pool operation preserves the invariant. -/
theorem inv_apply_op (s : PoolState) (op : PoolOp) (h : PoolInv s) :
    PoolInv (apply_op s op) := by
  cases op with
  | register agent_id agent_type max_connections priority now =>
      exact inv_register s agent_id agent_type max_connections priority now h
  | acquire agent_id conn_id now => exact inv_acquire s agent_id conn_id now h
  | release agent_id conn_id => exact inv_release s agent_id conn_id h
  | cleanup t => exact inv_cleanup s t h
  | shutdownOp => exact inv_shutdown s h

theorem inv_init (total_max_connections : Nat) (connection_timeout : Int) :
    PoolInv (init_pool total_max_connections connection_timeout) := by
  refine ⟨by simp [init_pool, keys_of], by simp [init_pool, keys_of],
    by simp [init_pool], by simp [init_pool, sum_counts], ?_, by simp [init_pool]⟩
  simp only [init_pool]
  positivity

theorem inv_run_ops (s : PoolState) (ops : List PoolOp) (h : PoolInv s) :
    PoolInv (run_ops s ops) := by
  induction ops generalizing s with
  | nil => exact h
  | cons op rest ih =>
      rw [run_ops, List.foldl_cons]
      exact ih _ (inv_apply_op s op h)

end Pool

/-- C1: after every sequence of pool operations (register, the acquire and
release halves of `get_connection` including preemption, idle cleanup,
shutdown) starting from a fresh `AgentPoolManager`, the per-agent connection
counters sum to the pool's `_active_connections`, that total is at most
`total_max_connections`, and every registered agent's `connection_count` lies
between 0 and its own `max_connections`. -/
theorem pool_counters_invariant (total_max_connections : Nat)
    (connection_timeout : Int) (ops : List PoolOp) :
    (run_ops (init_pool total_max_connections connection_timeout) ops).active_connections =
      (sum_counts (run_ops (init_pool total_max_connections connection_timeout) ops).agents : Int) ∧
    (run_ops (init_pool total_max_connections connection_timeout) ops).active_connections ≤
      ((run_ops (init_pool total_max_connections connection_timeout) ops).total_max_connections : Int) ∧
    ∀ a ∈ (run_ops (init_pool total_max_connections connection_timeout) ops).agents,
      a.connection_count ≤ a.max_connections := by
  have h := Pool.inv_run_ops _ ops (Pool.inv_init total_max_connections connection_timeout)
  exact ⟨h.2.2.2.1, h.2.2.2.2.1, h.2.2.2.2.2⟩

/-- C2 (amended): for a registered agent, `get_connection` raises the
capacity error exactly when the agent is at its own `max_connections` OR the
global cap is reached and preemption frees nothing; otherwise it acquires;
and a failing acquire leaves the pool state unchanged. -/
theorem acquire_capacity_error_iff (s : PoolState) (agent_id : String)
    (conn_id : Nat) (now : Int) (a : AgentConnectionInfo)
    (hreg : s.agents.find? (fun x => x.agent_id = agent_id) = some a) :
    ((get_connection_acquire s agent_id conn_id now).1 = AcquireOutcome.capacityError ↔
      (a.max_connections ≤ a.connection_count ∨
        ((s.total_max_connections : Int) ≤ s.active_connections ∧
          (try_free_connections_for_agent s agent_id).1 = false))) ∧
    ((get_connection_acquire s agent_id conn_id now).1 = AcquireOutcome.capacityError ∨
      (get_connection_acquire s agent_id conn_id now).1 = AcquireOutcome.acquired) ∧
    ((get_connection_acquire s agent_id conn_id now).1 = AcquireOutcome.capacityError →
      (get_connection_acquire s agent_id conn_id now).2 = s) := by
  have hnn : ¬ ((s.agents.find? (fun x => x.agent_id = agent_id)).isNone = true) := by
    simp [hreg]
  by_cases hmax : a.max_connections ≤ a.connection_count
  · have hcc : can_create_connection s agent_id = (false, s) := by
      simp only [can_create_connection, hreg, if_pos hmax]
    have hres : get_connection_acquire s agent_id conn_id now =
        (AcquireOutcome.capacityError, s) := by
      rw [get_connection_acquire, if_neg hnn, hcc]
    rw [hres]
    exact ⟨by simp [hmax], Or.inl rfl, fun _ => rfl⟩
  · by_cases hcap : (s.total_max_connections : Int) ≤ s.active_connections
    · have hcc : can_create_connection s agent_id =
          try_free_connections_for_agent s agent_id := by
        simp only [can_create_connection, hreg, if_neg hmax, if_pos hcap]
      cases htf : (try_free_connections_for_agent s agent_id).1
      · have htf2 := Pool.try_free_false_state s agent_id htf
        have hcc2 : can_create_connection s agent_id = (false, s) := by
          rw [hcc, Prod.ext_iff]
          exact ⟨htf, htf2⟩
        have hres : get_connection_acquire s agent_id conn_id now =
            (AcquireOutcome.capacityError, s) := by
          rw [get_connection_acquire, if_neg hnn, hcc2]
        rw [hres]
        exact ⟨by simp [hmax, hcap, htf], Or.inl rfl, fun _ => rfl⟩
      · rcases hpair : try_free_connections_for_agent s agent_id with ⟨b1, s1⟩
        have hb1 : b1 = true := by
          rw [hpair] at htf
          exact htf
        subst hb1
        have hres1 : (get_connection_acquire s agent_id conn_id now).1 =
            AcquireOutcome.acquired := by
          rw [get_connection_acquire, if_neg hnn, hcc, hpair]
        refine ⟨?_, Or.inr hres1, ?_⟩
        · rw [hres1]
          simp [hmax, htf]
        · intro hfalse
          rw [hres1] at hfalse
          cases hfalse
    · have hcc : can_create_connection s agent_id = (true, s) := by
        simp only [can_create_connection, hreg, if_neg hmax, if_neg hcap]
      have hres1 : (get_connection_acquire s agent_id conn_id now).1 =
          AcquireOutcome.acquired := by
        rw [get_connection_acquire, if_neg hnn, hcc]
      refine ⟨?_, Or.inr hres1, ?_⟩
      · rw [hres1]
        simp [hmax, hcap]
      · intro hfalse
        rw [hres1] at hfalse
        cases hfalse

unseal List.merge List.mergeSort in
/-- C2 counterexample to the claim as stated: starting from a fresh pool with
global cap 2, a single registered "nlp" agent (own cap 4) that holds 2
connections is strictly below its own `max_connections`, yet its next acquire
raises the capacity error — so "capacity error exactly when the agent is at
its own max_connections AND the global cap cannot be relieved" is false on
the code. -/
theorem acquire_capacity_error_iff_cx :
    ((get_connection_acquire (run_ops (init_pool 2 1000)
        [PoolOp.register ("a") ("nlp") none none 0,
         PoolOp.acquire ("a") 1 0, PoolOp.acquire ("a") 2 0])
        ("a") 3 1).1 = AcquireOutcome.capacityError) ∧
    (((run_ops (init_pool 2 1000)
        [PoolOp.register ("a") ("nlp") none none 0,
         PoolOp.acquire ("a") 1 0, PoolOp.acquire ("a") 2 0]).agents.find?
        (fun x => x.agent_id = ("a"))).map
      (fun x => decide (x.connection_count < x.max_connections)) = some true) := by
  decide

/-- C3: when the global cap is reached and an acquire by a registered agent
below its own cap triggers preemption, the candidate set is exactly the other
registered agents with strictly lower priority holding more than one
connection; if it is empty the acquire fails with the capacity error and the
state is unchanged; otherwise a candidate minimal under
`(priority, last_activity)` loses exactly its oldest connection, with its
counter and the global counter each decremented by one, every other agent
untouched, and the acquire succeeds. -/
theorem preemption_selects_minimal_victim (s : PoolState) (agent_id : String)
    (conn_id : Nat) (now : Int) (req : AgentConnectionInfo)
    (hinv : PoolInv s)
    (hreg : s.agents.find? (fun x => x.agent_id = agent_id) = some req)
    (hmax : req.connection_count < req.max_connections)
    (hcap : (s.total_max_connections : Int) ≤ s.active_connections) :
    (candidate_agents s agent_id req =
      s.agents.filter (fun a => decide (¬ a.agent_id = agent_id ∧
        a.priority < req.priority ∧ 1 < a.connection_count))) ∧
    (candidate_agents s agent_id req = [] →
      get_connection_acquire s agent_id conn_id now = (AcquireOutcome.capacityError, s)) ∧
    (candidate_agents s agent_id req ≠ [] → ∃ victim,
      victim ∈ candidate_agents s agent_id req ∧
      (∀ c ∈ candidate_agents s agent_id req, preempt_key_le victim c = true) ∧
      1 < victim.connection_count ∧
      (try_free_connections_for_agent s agent_id).1 = true ∧
      lookup_conns (try_free_connections_for_agent s agent_id).2.connections
          victim.agent_id =
        (lookup_conns s.connections victim.agent_id).tail ∧
      ((try_free_connections_for_agent s agent_id).2.agents.find?
          (fun x => x.agent_id = victim.agent_id)) =
        some { victim with connection_count := victim.connection_count - 1 } ∧
      (try_free_connections_for_agent s agent_id).2.active_connections =
        s.active_connections - 1 ∧
      (∀ b ∈ s.agents, ¬ b.agent_id = victim.agent_id →
        b ∈ (try_free_connections_for_agent s agent_id).2.agents ∧
        lookup_conns (try_free_connections_for_agent s agent_id).2.connections
            b.agent_id =
          lookup_conns s.connections b.agent_id) ∧
      (get_connection_acquire s agent_id conn_id now).1 = AcquireOutcome.acquired) := by
  obtain ⟨h1, h2, h3, h4, h5, h6⟩ := hinv
  have hnn : ¬ ((s.agents.find? (fun x => x.agent_id = agent_id)).isNone = true) := by
    simp [hreg]
  have hmax2 : ¬ req.max_connections ≤ req.connection_count := by omega
  have hspec := Pool.try_free_spec s agent_id req hreg h3
  refine ⟨rfl, ?_, ?_⟩
  · intro hemp
    have htf := hspec.1 hemp
    have hcc : can_create_connection s agent_id = (false, s) := by
      simp only [can_create_connection, hreg, if_neg hmax2, if_pos hcap, htf]
    rw [get_connection_acquire, if_neg hnn, hcc]
  · intro hne
    obtain ⟨victim, hvmem, hmin, hvcount, heq⟩ := hspec.2 hne
    have hvina : victim ∈ s.agents := (List.mem_filter.mp hvmem).1
    have hkv : s.agents.find? (fun x => x.agent_id = victim.agent_id) = some victim :=
      Pool.find?_of_mem_nodup h1 hvina
    have hpresent : (s.connections.find? (fun p => p.1 = victim.agent_id)).isSome = true :=
      Pool.find?_conn_isSome_of_mem_keys (by rw [h2]; exact List.mem_map_of_mem _ hvina)
    refine ⟨victim, hvmem, hmin, hvcount, ?_, ?_, ?_, ?_, ?_, ?_⟩
    · rw [heq]
    · rw [heq]
      dsimp only []
      exact Pool.lookup_conns_set_self hpresent
    · rw [heq]
      dsimp only []
      rw [@Pool.find?_update_self _ _
        (fun a => { a with connection_count := a.connection_count - 1 })
        (fun _ => rfl), hkv]
      rfl
    · rw [heq]
    · intro b hb hbne
      rw [heq]
      dsimp only []
      constructor
      · exact Pool.mem_update_of_ne hb hbne
      · exact Pool.lookup_conns_set_other hbne
    · have hcc : can_create_connection s agent_id =
          try_free_connections_for_agent s agent_id := by
        simp only [can_create_connection, hreg, if_neg hmax2, if_pos hcap]
      rw [get_connection_acquire, if_neg hnn, hcc, heq]

/-- Witness for C3 at the scenario of the specification: "a1" (crawler,
priority 2) fills a pool with global cap 2; the acquire by "a2" (database,
priority 4) succeeds through preemption. -/
theorem preemption_selects_minimal_victim_witness :
    (get_connection_acquire (run_ops (init_pool 2 1000)
        [PoolOp.register ("a1") ("crawler") none none 0,
         PoolOp.register ("a2") ("database") none none 0,
         PoolOp.acquire ("a1") 1 1, PoolOp.acquire ("a1") 2 2])
        ("a2") 3 3).1 = AcquireOutcome.acquired := by
  have h := preemption_selects_minimal_victim (run_ops (init_pool 2 1000)
      [PoolOp.register ("a1") ("crawler") none none 0,
       PoolOp.register ("a2") ("database") none none 0,
       PoolOp.acquire ("a1") 1 1, PoolOp.acquire ("a1") 2 2]) ("a2") 3 3
      { agent_id := ("a2"), agent_type := ("database"), connection_count := 0,
        last_activity := 0, max_connections := 3, priority := 4 }
      (by decide) (by decide) (by decide) (by decide)
  obtain ⟨-, -, h3⟩ := h
  obtain ⟨v, -, -, -, -, -, -, -, -, hacq⟩ := h3 (by decide)
  exact hacq

/-- Witness for C2 at a concrete reachable pool: the dichotomy and the iff
are established for a freshly registered agent. -/
theorem acquire_capacity_error_iff_witness :
    ((get_connection_acquire (run_ops (init_pool 2 1000)
        [PoolOp.register ("a") ("nlp") none none 0]) ("a") 1 0).1 =
      AcquireOutcome.capacityError) ∨
    ((get_connection_acquire (run_ops (init_pool 2 1000)
        [PoolOp.register ("a") ("nlp") none none 0]) ("a") 1 0).1 =
      AcquireOutcome.acquired) :=
  (acquire_capacity_error_iff (run_ops (init_pool 2 1000)
      [PoolOp.register ("a") ("nlp") none none 0]) ("a") 1 0
    { agent_id := ("a"), agent_type := ("nlp"), connection_count := 0,
      last_activity := 0, max_connections := 4, priority := 1 }
    (by decide)).2.1

namespace Pool

/-- A single cleanup step keeps the timeout and the global cap fields. -/
theorem cleanup_step_fields (t : Int) (s : PoolState) (k : String) :
    (cleanup_step t s k).connection_timeout = s.connection_timeout ∧
    (cleanup_step t s k).total_max_connections = s.total_max_connections := by
  rcases hf : s.agents.find? (fun a => a.agent_id = k) with _ | info
  · simp [cleanup_step, hf]
  · by_cases hexp : s.connection_timeout < t - info.last_activity
    · simp only [cleanup_step, hf, if_pos hexp]
      rw [close_agent_connections]
      rcases hfc : s.connections.find? (fun p => p.1 = k) with _ | p <;> simp [hfc]
    · simp [cleanup_step, hf, if_neg hexp]

theorem mem_erase_agent_of_ne {l : List AgentConnectionInfo} {k : String}
    {a : AgentConnectionInfo} (ha : a ∈ l) (hne : ¬ a.agent_id = k) :
    a ∈ erase_agent_key l k := by
  induction l with
  | nil => simp at ha
  | cons b rest ih =>
      rw [erase_agent_key]
      rcases List.mem_cons.mp ha with ha | ha
      · subst ha
        rw [if_neg hne]
        exact List.mem_cons_self _ _
      · by_cases hb : b.agent_id = k
        · rw [if_pos hb]
          exact ha
        · rw [if_neg hb]
          exact List.mem_cons_of_mem _ (ih ha)

theorem close_fields (s : PoolState) (agent_id : String) :
    (close_agent_connections s agent_id).connection_timeout = s.connection_timeout ∧
    (close_agent_connections s agent_id).total_max_connections = s.total_max_connections := by
  rcases hfc : s.connections.find? (fun p => p.1 = agent_id) with _ | p <;>
    simp [close_agent_connections, hfc]

/-- `_close_agent_connections` does not touch other agents. -/
theorem close_other (s : PoolState) (agent_id k : String) (hk : ¬ k = agent_id) :
    (close_agent_connections s agent_id).agents.find? (fun a => a.agent_id = k) =
      s.agents.find? (fun a => a.agent_id = k) ∧
    lookup_conns (close_agent_connections s agent_id).connections k =
      lookup_conns s.connections k := by
  rcases hfc : s.connections.find? (fun p => p.1 = agent_id) with _ | p
  · simp only [close_agent_connections, hfc]
    exact ⟨find?_erase_agent_other hk, trivial⟩
  · simp only [close_agent_connections, hfc]
    refine ⟨find?_erase_agent_other hk, ?_⟩
    rw [lookup_conns, lookup_conns, find?_erase_conn_other hk]

/-- `_close_agent_connections` fully removes the agent. -/
theorem close_self (s : PoolState) (agent_id : String) (h : PoolInv s) :
    (close_agent_connections s agent_id).agents.find?
      (fun a => a.agent_id = agent_id) = none ∧
    (close_agent_connections s agent_id).connections.find?
      (fun p => p.1 = agent_id) = none := by
  obtain ⟨h1, h2, _, _, _, _⟩ := h
  have hcsn : (s.connections.map Prod.fst).Nodup := by rw [h2]; exact h1
  rcases hfc : s.connections.find? (fun p => p.1 = agent_id) with _ | p
  · simp only [close_agent_connections, hfc]
    exact ⟨find?_erase_agent_self h1, trivial⟩
  · simp only [close_agent_connections, hfc]
    exact ⟨find?_erase_agent_self h1, find?_erase_conn_self hcsn⟩

theorem cleanup_fold_none (t : Int) (ks : List String) :
    ∀ s : PoolState, ∀ k : String,
      s.agents.find? (fun a => a.agent_id = k) = none →
      s.connections.find? (fun p => p.1 = k) = none →
      ((ks.foldl (cleanup_step t) s).agents.find? (fun a => a.agent_id = k) = none ∧
        (ks.foldl (cleanup_step t) s).connections.find? (fun p => p.1 = k) = none) := by
  induction ks with
  | nil => exact fun s k h1 h2 => ⟨h1, h2⟩
  | cons k0 rest ih =>
      intro s k h1 h2
      rw [List.foldl_cons]
      apply ih
      · rcases hf : s.agents.find? (fun a => a.agent_id = k0) with _ | info
        · simpa [cleanup_step, hf] using h1
        · by_cases hexp : s.connection_timeout < t - info.last_activity
          · rcases hfc : s.connections.find? (fun p => p.1 = k0) with _ | p <;>
              simp only [cleanup_step, hf, if_pos hexp, close_agent_connections, hfc] <;>
              exact (erase_agent_sublist _ _).find?_eq_none h1
          · simpa [cleanup_step, hf, if_neg hexp] using h1
      · rcases hf : s.agents.find? (fun a => a.agent_id = k0) with _ | info
        · simpa [cleanup_step, hf] using h2
        · by_cases hexp : s.connection_timeout < t - info.last_activity
          · rcases hfc : s.connections.find? (fun p => p.1 = k0) with _ | p
            · simp only [cleanup_step, hf, if_pos hexp, close_agent_connections, hfc]
              exact h2
            · simp only [cleanup_step, hf, if_pos hexp, close_agent_connections, hfc]
              exact (erase_conn_sublist _ _).find?_eq_none h2
          · simpa [cleanup_step, hf, if_neg hexp] using h2

theorem cleanup_fold_keep (t : Int) (ks : List String) :
    ∀ s : PoolState, ∀ a : AgentConnectionInfo, PoolInv s →
      s.agents.find? (fun x => x.agent_id = a.agent_id) = some a →
      ¬ (s.connection_timeout < t - a.last_activity) →
      ((ks.foldl (cleanup_step t) s).agents.find?
          (fun x => x.agent_id = a.agent_id) = some a ∧
        lookup_conns (ks.foldl (cleanup_step t) s).connections a.agent_id =
          lookup_conns s.connections a.agent_id) := by
  induction ks with
  | nil => exact fun s a _ hfa _ => ⟨hfa, rfl⟩
  | cons k0 rest ih =>
      intro s a hinv hfa hnexp
      rw [List.foldl_cons]
      have hstep_inv : PoolInv (cleanup_step t s k0) := by
        rcases hf : s.agents.find? (fun x => x.agent_id = k0) with _ | info
        · simpa only [cleanup_step, hf] using hinv
        · by_cases hexp : s.connection_timeout < t - info.last_activity
          · simp only [cleanup_step, hf, if_pos hexp]
            exact inv_close s k0 hinv
          · simpa only [cleanup_step, hf, if_neg hexp] using hinv
      by_cases hk : a.agent_id = k0
      · have hsame : cleanup_step t s k0 = s := by
          rw [cleanup_step, ← hk]
          simp only [hfa, if_neg hnexp]
        rw [hsame]
        exact ih s a hinv hfa hnexp
      · have hstep : (cleanup_step t s k0).agents.find?
            (fun x => x.agent_id = a.agent_id) = some a ∧
            lookup_conns (cleanup_step t s k0).connections a.agent_id =
              lookup_conns s.connections a.agent_id ∧
            (cleanup_step t s k0).connection_timeout = s.connection_timeout := by
          rcases hf : s.agents.find? (fun x => x.agent_id = k0) with _ | info
          · simp only [cleanup_step, hf]
            refine ⟨hfa, ?_, ?_⟩ <;> trivial
          · by_cases hexp : s.connection_timeout < t - info.last_activity
            · simp only [cleanup_step, hf, if_pos hexp]
              obtain ⟨hc1, hc2⟩ := close_other s k0 a.agent_id hk
              exact ⟨hc1.trans hfa, hc2, (close_fields s k0).1⟩
            · simp only [cleanup_step, hf, if_neg hexp]
              refine ⟨hfa, ?_, ?_⟩ <;> trivial
        obtain ⟨hs1, hs2, hs3⟩ := hstep
        have := ih (cleanup_step t s k0) a hstep_inv hs1 (by rw [hs3]; exact hnexp)
        exact ⟨this.1, this.2.trans hs2⟩

theorem cleanup_fold_remove (t : Int) (ks : List String) :
    ∀ s : PoolState, ∀ a : AgentConnectionInfo, PoolInv s →
      s.agents.find? (fun x => x.agent_id = a.agent_id) = some a →
      a.agent_id ∈ ks →
      s.connection_timeout < t - a.last_activity →
      ((ks.foldl (cleanup_step t) s).agents.find?
          (fun x => x.agent_id = a.agent_id) = none ∧
        (ks.foldl (cleanup_step t) s).connections.find?
          (fun p => p.1 = a.agent_id) = none) := by
  induction ks with
  | nil => intro s a _ _ hmem _; simp at hmem
  | cons k0 rest ih =>
      intro s a hinv hfa hmem hexp
      rw [List.foldl_cons]
      by_cases hk : a.agent_id = k0
      · subst hk
        have hstep : cleanup_step t s a.agent_id = close_agent_connections s a.agent_id := by
          rw [cleanup_step]
          simp only [hfa, if_pos hexp]
        rw [hstep]
        obtain ⟨hn1, hn2⟩ := close_self s a.agent_id hinv
        exact cleanup_fold_none t rest _ _ hn1 hn2
      · have hmem2 : a.agent_id ∈ rest := by
          rcases List.mem_cons.mp hmem with h | h
          · exact absurd h hk
          · exact h
        have hstep_inv : PoolInv (cleanup_step t s k0) := by
          rcases hf : s.agents.find? (fun x => x.agent_id = k0) with _ | info
          · simpa only [cleanup_step, hf] using hinv
          · by_cases hexp0 : s.connection_timeout < t - info.last_activity
            · simp only [cleanup_step, hf, if_pos hexp0]
              exact inv_close s k0 hinv
            · simpa only [cleanup_step, hf, if_neg hexp0] using hinv
        have hstep : (cleanup_step t s k0).agents.find?
            (fun x => x.agent_id = a.agent_id) = some a ∧
            (cleanup_step t s k0).connection_timeout = s.connection_timeout := by
          rcases hf : s.agents.find? (fun x => x.agent_id = k0) with _ | info
          · simp only [cleanup_step, hf]
            refine ⟨hfa, ?_⟩
            trivial
          · by_cases hexp0 : s.connection_timeout < t - info.last_activity
            · simp only [cleanup_step, hf, if_pos hexp0]
              obtain ⟨hc1, _⟩ := close_other s k0 a.agent_id hk
              exact ⟨hc1.trans hfa, (close_fields s k0).1⟩
            · simp only [cleanup_step, hf, if_neg hexp0]
              refine ⟨hfa, ?_⟩
              trivial
        exact ih (cleanup_step t s k0) a hstep_inv hstep.1 hmem2
          (by rw [hstep.2]; exact hexp)

theorem cleanup_fold_subset (t : Int) (ks : List String) :
    ∀ s : PoolState, ∀ b ∈ (ks.foldl (cleanup_step t) s).agents, b ∈ s.agents := by
  induction ks with
  | nil => exact fun s b hb => hb
  | cons k0 rest ih =>
      intro s b hb
      rw [List.foldl_cons] at hb
      have hb2 := ih (cleanup_step t s k0) b hb
      rcases hf : s.agents.find? (fun x => x.agent_id = k0) with _ | info
      · simpa only [cleanup_step, hf] using hb2
      · by_cases hexp : s.connection_timeout < t - info.last_activity
        · simp only [cleanup_step, hf, if_pos hexp] at hb2
          rw [close_agent_connections] at hb2
          rcases hfc : s.connections.find? (fun p => p.1 = k0) with _ | p <;>
            rw [hfc] at hb2 <;>
            exact (erase_agent_sublist _ _).mem hb2
        · simpa only [cleanup_step, hf, if_neg hexp] using hb2

end Pool

/-- C4: one run of `_cleanup_idle_connections` at time `t` force-closes the
connections of, and unregisters, exactly the agents with
`t - last_activity > connection_timeout`; every other agent keeps its
registration record (hence its counters) and its connection list unchanged,
and no agent is added. -/
theorem idle_cleanup_exactly_expired (s : PoolState) (t : Int) (hinv : PoolInv s) :
    (∀ a ∈ s.agents, s.connection_timeout < t - a.last_activity →
      (cleanup_idle_connections s t).agents.find?
        (fun x => x.agent_id = a.agent_id) = none ∧
      (cleanup_idle_connections s t).connections.find?
        (fun p => p.1 = a.agent_id) = none) ∧
    (∀ a ∈ s.agents, ¬ s.connection_timeout < t - a.last_activity →
      (cleanup_idle_connections s t).agents.find?
        (fun x => x.agent_id = a.agent_id) = some a ∧
      lookup_conns (cleanup_idle_connections s t).connections a.agent_id =
        lookup_conns s.connections a.agent_id) ∧
    (∀ b ∈ (cleanup_idle_connections s t).agents, b ∈ s.agents) := by
  refine ⟨?_, ?_, ?_⟩
  · intro a ha hexp
    exact Pool.cleanup_fold_remove t (keys_of s.agents) s a hinv
      (Pool.find?_of_mem_nodup hinv.1 ha) (List.mem_map_of_mem _ ha) hexp
  · intro a ha hnexp
    exact Pool.cleanup_fold_keep t (keys_of s.agents) s a hinv
      (Pool.find?_of_mem_nodup hinv.1 ha) hnexp
  · intro b hb
    exact Pool.cleanup_fold_subset t (keys_of s.agents) s b hb

/-- Witness for C4: with timeout 1000, a sweep at time 1200 unregisters the
agent last active at 0 and leaves the agent last active at 500 untouched. -/
theorem idle_cleanup_exactly_expired_witness :
    ((cleanup_idle_connections (run_ops (init_pool 5 1000)
        [PoolOp.register ("x") ("nlp") none none 0,
         PoolOp.register ("y") ("nlp") none none 500]) 1200).agents.find?
      (fun a => a.agent_id = ("x")) = none) ∧
    ((cleanup_idle_connections (run_ops (init_pool 5 1000)
        [PoolOp.register ("x") ("nlp") none none 0,
         PoolOp.register ("y") ("nlp") none none 500]) 1200).agents.find?
      (fun a => a.agent_id = ("y")) =
      some { agent_id := ("y"), agent_type := ("nlp"), connection_count := 0, last_activity := 500, max_connections := 4, priority := 1 }) := by
  have h := idle_cleanup_exactly_expired (run_ops (init_pool 5 1000)
      [PoolOp.register ("x") ("nlp") none none 0,
       PoolOp.register ("y") ("nlp") none none 500]) 1200 (by decide)
  refine ⟨?_, ?_⟩
  · exact (h.1 { agent_id := ("x"), agent_type := ("nlp"), connection_count := 0, last_activity := 0, max_connections := 4, priority := 1 } (by decide) (by decide)).1
  · exact (h.2.1 { agent_id := ("y"), agent_type := ("nlp"), connection_count := 0, last_activity := 500, max_connections := 4, priority := 1 } (by decide) (by decide)).1

/-- C9: `can_proceed` is true exactly when `delay` seconds have elapsed since
the last permitted call, equivalently exactly when `time_until_next_call`
returns 0; otherwise `time_until_next_call` returns `delay - (t - last)`
(together: `max 0 (delay - (t - last))`); `wait` sleeps
`max 0 (delay - (t - last))` seconds and then stamps the last-call time to
the new current time, keeping the delay.  The two queries are pure functions
of the state and modify nothing by construction. -/
theorem rate_limiter_spec (r : RateLimiter) (t : ℚ) :
    (can_proceed r t = true ↔ r.delay ≤ t - r.last_call_time) ∧
    (can_proceed r t = true ↔ time_until_next_call r t = 0) ∧
    time_until_next_call r t = max 0 (r.delay - (t - r.last_call_time)) ∧
    (wait r t).1 = max 0 (r.delay - (t - r.last_call_time)) ∧
    (wait r t).1 = time_until_next_call r t ∧
    (wait r t).2.last_call_time = t + (wait r t).1 ∧
    (wait r t).2.delay = r.delay := by
  rcases le_or_lt r.delay (t - r.last_call_time) with hle | hlt
  · have h1 : can_proceed r t = true := by
      simp [can_proceed, hle]
    have h2 : time_until_next_call r t = 0 := by
      simp [time_until_next_call, hle]
    have h3 : max 0 (r.delay - (t - r.last_call_time)) = 0 :=
      max_eq_left (by linarith)
    have h4 : (wait r t).1 = 0 := by
      simp [wait, not_lt.mpr hle]
    refine ⟨⟨fun _ => hle, fun _ => h1⟩, ⟨fun _ => h2, fun _ => h1⟩, ?_, ?_, ?_, ?_, rfl⟩
    · rw [h2, h3]
    · rw [h4, h3]
    · rw [h4, h2]
    · simp [wait]
  · have h1 : can_proceed r t = false := by
      simp [can_proceed]
      linarith
    have h2 : time_until_next_call r t = r.delay - (t - r.last_call_time) := by
      simp [time_until_next_call, not_le.mpr hlt]
    have h3 : max 0 (r.delay - (t - r.last_call_time)) =
        r.delay - (t - r.last_call_time) :=
      max_eq_right (by linarith)
    have h4 : (wait r t).1 = r.delay - (t - r.last_call_time) := by
      simp [wait, hlt]
    refine ⟨?_, ?_, ?_, ?_, ?_, ?_, rfl⟩
    · constructor
      · intro hc
        rw [h1] at hc
        cases hc
      · intro hc
        linarith
    · constructor
      · intro hc
        rw [h1] at hc
        cases hc
      · intro hc
        rw [h2] at hc
        exfalso
        have : (0 : ℚ) < r.delay - (t - r.last_call_time) := by linarith
        linarith [hc ▸ this]
    · rw [h2, h3]
    · rw [h4, h3]
    · rw [h4, h2]
    · simp [wait]

/-- C10: if the storage walk raises, measured usage is 0 and `can_store_file`
accepts every size up to the ceiling, so a download is never rejected for
capacity when the tree is unreadable; and only filenames ending in ".pdf"
contribute to the measured usage. -/
theorem storage_usage_error_returns_zero (e : String)
    (max_storage_bytes file_size : Nat) (h : file_size ≤ max_storage_bytes) :
    get_current_storage_usage (Except.error e) = 0 ∧
    can_store_file (Except.error e) max_storage_bytes file_size = true ∧
    (∀ files : List (String × Nat), get_current_storage_usage (Except.ok files) =
      get_current_storage_usage
        (Except.ok (files.filter (fun f => String.endsWith f.1 (".pdf"))))) := by
  refine ⟨rfl, by simp [can_store_file, get_current_storage_usage, h], ?_⟩
  intro files
  rw [get_current_storage_usage, get_current_storage_usage, List.filter_filter]
  simp

/-- Witness for C10 at a concrete failing walk and a mixed file list. -/
theorem storage_usage_error_returns_zero_witness :
    get_current_storage_usage (Except.error ("boom")) = 0 ∧
    can_store_file (Except.error ("boom")) 1000 1000 = true ∧
    (∀ files : List (String × Nat), get_current_storage_usage (Except.ok files) =
      get_current_storage_usage
        (Except.ok (files.filter (fun f => String.endsWith f.1 (".pdf"))))) :=
  storage_usage_error_returns_zero ("boom") 1000 1000 (by decide)

namespace Batch

theorem zip_map_getElem {α β γ : Type} (f : α × β → γ) :
    ∀ (l1 : List α) (l2 : List β) (i : Nat) (a : α) (b : β),
      l1[i]? = some a → l2[i]? = some b →
      ((l1.zip l2).map f)[i]? = some (f (a, b)) := by
  intro l1
  induction l1 with
  | nil => intro l2 i a b ha; simp at ha
  | cons x xs ih =>
      intro l2 i a b ha hb
      cases l2 with
      | nil => simp at hb
      | cons y ys =>
          cases i with
          | zero =>
              simp only [List.getElem?_cons_zero, Option.some.injEq] at ha hb
              subst ha
              subst hb
              simp [List.zip_cons_cons]
          | succ n =>
              simp only [List.getElem?_cons_succ] at ha hb
              simpa [List.zip_cons_cons] using ih ys n a b ha hb

end Batch

/-- C8: both batch downloads return one result per input, in input order;
an exception captured for an item becomes that item's result (a failure
record carrying the exception text for `download_batch`, the original paper
record for `download_papers_batch`); the aggregation functions are total, so
no exception escapes the batch, and no item's failure truncates the list. -/
theorem batch_results_capture_failures (pdf_urls : List String)
    (outcomes : List (Except String DownloadResult))
    (papers : List PaperRecord) (paper_outcomes : List (Except String PaperRecord))
    (h1 : outcomes.length = pdf_urls.length)
    (h2 : paper_outcomes.length = papers.length) :
    (download_batch pdf_urls outcomes).length = pdf_urls.length ∧
    (∀ (i : Nat) (u : String) (oc : Except String DownloadResult),
      pdf_urls[i]? = some u → outcomes[i]? = some oc →
      (download_batch pdf_urls outcomes)[i]? = some (match oc with
        | .error e => { url := u, local_path := none, success := false, error_message := some e }
        | .ok r => r)) ∧
    (download_papers_batch papers paper_outcomes).length = papers.length ∧
    (∀ (i : Nat) (p : PaperRecord) (oc : Except String PaperRecord),
      papers[i]? = some p → paper_outcomes[i]? = some oc →
      (download_papers_batch papers paper_outcomes)[i]? = some (match oc with
        | .error _ => p
        | .ok r => r)) := by
  refine ⟨?_, ?_, ?_, ?_⟩
  · rw [download_batch, List.length_map, List.length_zip, h1]
    exact min_self _
  · intro i u oc hu hoc
    exact Batch.zip_map_getElem _ pdf_urls outcomes i u oc hu hoc
  · rw [download_papers_batch, List.length_map, List.length_zip, h2]
    exact min_self _
  · intro i p oc hp hoc
    exact Batch.zip_map_getElem _ papers paper_outcomes i p oc hp hoc

/-- Witness for C8 on a two-element batch with one captured exception. -/
theorem batch_results_capture_failures_witness :
    (download_batch [("u1"), ("u2")]
      [Except.ok { url := ("u1"), local_path := some ("p1"), success := true },
       Except.error ("boom")]).length = 2 ∧
    (download_batch [("u1"), ("u2")]
      [Except.ok { url := ("u1"), local_path := some ("p1"), success := true },
       Except.error ("boom")])[1]? =
      some { url := ("u2"), local_path := none, success := false, error_message := some ("boom") } := by
  have h := batch_results_capture_failures [("u1"), ("u2")]
    [Except.ok { url := ("u1"), local_path := some ("p1"), success := true },
     Except.error ("boom")] [] [] (by decide) (by decide)
  exact ⟨h.1, h.2.1 1 ("u2") (Except.error ("boom")) (by rfl) (by rfl)⟩

namespace Files

theorem remove_fs_eq_erase (fs : Fs) (path : String) :
    remove_fs fs path = erase_conn_key fs path := by
  induction fs with
  | nil => rfl
  | cons e rest ih => rw [remove_fs, erase_conn_key, ih]

theorem insert_fs_of_present {fs : Fs} {path : String} {contents : List Nat}
    (h : (fs.find? (fun e => e.1 = path)).isSome) :
    insert_fs fs path contents = set_conns fs path contents := by
  rw [insert_fs, if_pos h, set_conns]
  apply List.map_congr_left
  intro e _
  by_cases he : e.1 = path
  · simp [he]
  · simp [he]

theorem find?_insert_self (fs : Fs) (path : String) (contents : List Nat) :
    (insert_fs fs path contents).find? (fun e => e.1 = path) = some (path, contents) := by
  rcases hf : fs.find? (fun e => e.1 = path) with _ | p
  · rw [insert_fs, if_neg (by simp [hf]), List.find?_append, hf]
    simp only [Option.or]
    rw [List.find?_cons_of_pos _ (by simp)]
  · rw [insert_fs_of_present (by simp [hf])]
    exact Pool.find?_set_conns_self hf

theorem lookup_fs_insert_self (fs : Fs) (path : String) (contents : List Nat) :
    lookup_fs (insert_fs fs path contents) path = some contents := by
  rw [lookup_fs, find?_insert_self]
  rfl

theorem lookup_fs_cons_self (path : String) (contents : List Nat) (rest : Fs) :
    lookup_fs ((path, contents) :: rest) path = some contents := by
  rw [lookup_fs, List.find?_cons_of_pos _ (by simp)]
  rfl

theorem map_fst_insert_nodup {fs : Fs} {path : String} {contents : List Nat}
    (h : (fs.map Prod.fst).Nodup) :
    ((insert_fs fs path contents).map Prod.fst).Nodup := by
  rcases hf : fs.find? (fun e => e.1 = path) with _ | p
  · rw [insert_fs, if_neg (by simp [hf])]
    rw [List.map_append, List.map_cons, List.map_nil, List.nodup_append]
    refine ⟨h, by simp, ?_⟩
    intro x hx hx2
    simp only [List.mem_singleton] at hx2
    subst hx2
    rcases List.mem_map.mp hx with ⟨e, he, hfst⟩
    rw [List.find?_eq_none] at hf
    exact hf e he (by simpa using hfst)
  · rw [insert_fs_of_present (by simp [hf])]
    rw [show (set_conns fs path contents).map Prod.fst = fs.map Prod.fst from
      Pool.map_fst_set_conns]
    exact h

theorem find?_remove_self {fs : Fs} {path : String}
    (h : (fs.map Prod.fst).Nodup) :
    (remove_fs fs path).find? (fun e => e.1 = path) = none := by
  rw [remove_fs_eq_erase]
  exact Pool.find?_erase_conn_self h

theorem lookup_fs_remove_insert {fs : Fs} {path : String} {contents : List Nat}
    (h : (fs.map Prod.fst).Nodup) :
    lookup_fs (remove_fs (insert_fs fs path contents) path) path = none := by
  rw [lookup_fs, find?_remove_self (map_fst_insert_nodup h)]
  rfl

theorem pdf_usage_le_total (fs : Fs) :
    pdf_usage fs ≤ (fs.map (fun e => e.2.length)).sum := by
  induction fs with
  | nil => simp [pdf_usage]
  | cons e rest ih =>
      rw [pdf_usage, List.filter_cons]
      by_cases he : String.endsWith e.1 (".pdf") = true
      · rw [if_pos he]
        simp only [List.map_cons, List.sum_cons]
        exact Nat.add_le_add_left (by simpa [pdf_usage] using ih) _
      · rw [if_neg he]
        simp only [List.map_cons, List.sum_cons]
        calc pdf_usage rest ≤ (rest.map (fun e => e.2.length)).sum := by
              simpa [pdf_usage] using ih
          _ ≤ e.2.length + (rest.map (fun e => e.2.length)).sum := Nat.le_add_left _ _

end Files

/-- C5: when the deterministically derived local file already exists (above
the 1000-byte threshold for `download_paper`), both `download_pdf` and
`download_paper` return success without fetching the remote resource and
leave the filesystem unchanged; the checksum carried in the
`download_pdf` skip-result is exactly the hash of the existing file's
contents (re-hashed via `_calculate_checksum`), while `download_paper`'s
skip-result records the on-disk path and size. -/
theorem skip_existing_download (hash : List Nat → String)
    (url_hash10 : String → String) (fs : Fs) (active_downloads : List String)
    (storage_path url : String) (paper_id : Option String)
    (mcp_connected mcp_success : Bool) (mcp_error : Option String)
    (mcp_written : Option (List Nat)) (status : Nat) (reason : String)
    (body : List Nat) (contents : List Nat) (fs2 : Fs) (max_storage_bytes : Nat)
    (base : String) (paper : PaperRecord) (status2 : Nat) (reason2 : String)
    (clen2 : Option Nat) (body2 : List Nat) (pcontents : List Nat)
    (hactive : url ∉ active_downloads)
    (hcap : check_storage_capacity fs = true)
    (hex : lookup_fs fs (generate_local_path url_hash10 storage_path url paper_id) =
      some contents)
    (_hsize : 1000 < contents.length)
    (hflag : paper.pdf_downloaded = false)
    (hpex : lookup_fs fs2 (get_paper_file_path base paper.paper_id paper.source) =
      some pcontents)
    (hpsize : 1000 < pcontents.length) :
    ((download_pdf hash url_hash10 fs active_downloads storage_path url paper_id
        true mcp_connected mcp_success mcp_error mcp_written status reason
        body).1.success = true) ∧
    ((download_pdf hash url_hash10 fs active_downloads storage_path url paper_id
        true mcp_connected mcp_success mcp_error mcp_written status reason
        body).2.2 = false) ∧
    ((download_pdf hash url_hash10 fs active_downloads storage_path url paper_id
        true mcp_connected mcp_success mcp_error mcp_written status reason
        body).2.1 = fs) ∧
    ((download_pdf hash url_hash10 fs active_downloads storage_path url paper_id
        true mcp_connected mcp_success mcp_error mcp_written status reason
        body).1.checksum = some (hash contents)) ∧
    ((download_pdf hash url_hash10 fs active_downloads storage_path url paper_id
        true mcp_connected mcp_success mcp_error mcp_written status reason
        body).1.file_size = contents.length) ∧
    ((download_paper hash fs2 max_storage_bytes base paper status2 reason2 clen2
        body2).2.2 = false) ∧
    ((download_paper hash fs2 max_storage_bytes base paper status2 reason2 clen2
        body2).2.1 = fs2) ∧
    ((download_paper hash fs2 max_storage_bytes base paper status2 reason2 clen2
        body2).1.pdf_downloaded = true) ∧
    ((download_paper hash fs2 max_storage_bytes base paper status2 reason2 clen2
        body2).1.pdf_file_path =
      some (get_paper_file_path base paper.paper_id paper.source)) ∧
    ((download_paper hash fs2 max_storage_bytes base paper status2 reason2 clen2
        body2).1.pdf_file_size = pcontents.length) := by
  have hpdf : download_pdf hash url_hash10 fs active_downloads storage_path url
      paper_id true mcp_connected mcp_success mcp_error mcp_written status reason
      body =
      ({ url := url,
         local_path := some (generate_local_path url_hash10 storage_path url paper_id),
         success := true, file_size := contents.length,
         checksum := some (hash contents) }, fs, false) := by
    rw [download_pdf, if_neg hactive, if_neg (by simp [hcap])]
    simp only [hex]
    simp
  have hpaper : download_paper hash fs2 max_storage_bytes base paper status2
      reason2 clen2 body2 =
      ({ paper with pdf_downloaded := true, pdf_file_path := some (get_paper_file_path base paper.paper_id paper.source), pdf_file_size := pcontents.length }, fs2, false) := by
    rw [download_paper, if_neg (by simp [hflag])]
    simp only [hpex]
    rw [if_pos (by simpa using hpsize)]
    simp [hpex]
  rw [hpdf, hpaper]
  exact ⟨rfl, rfl, rfl, rfl, rfl, rfl, rfl, rfl, rfl, rfl⟩

/-- Witness for C5 with a 1001-byte file already on disk at the derived path:
the skip succeeds without fetching and carries the re-hash of the contents. -/
theorem skip_existing_download_witness :
    ((download_pdf (fun _ => ("h")) (fun _ => ("z"))
      [(generate_local_path (fun _ => ("z")) ("./papers") ("http://x/a.pdf") none,
        List.replicate 1001 0)]
      [] ("./papers") ("http://x/a.pdf") none true false false none none 0 ("")
      []).1.success = true) ∧
    ((download_pdf (fun _ => ("h")) (fun _ => ("z"))
      [(generate_local_path (fun _ => ("z")) ("./papers") ("http://x/a.pdf") none,
        List.replicate 1001 0)]
      [] ("./papers") ("http://x/a.pdf") none true false false none none 0 ("")
      []).2.2 = false) ∧
    ((download_pdf (fun _ => ("h")) (fun _ => ("z"))
      [(generate_local_path (fun _ => ("z")) ("./papers") ("http://x/a.pdf") none,
        List.replicate 1001 0)]
      [] ("./papers") ("http://x/a.pdf") none true false false none none 0 ("")
      []).1.checksum = some (("h"))) := by
  have h := skip_existing_download (fun _ => ("h")) (fun _ => ("z"))
    [(generate_local_path (fun _ => ("z")) ("./papers") ("http://x/a.pdf") none,
      List.replicate 1001 0)]
    [] ("./papers") ("http://x/a.pdf") none false false none none 0 ("") []
    (List.replicate 1001 0)
    [(get_paper_file_path ("papers") ("2301.123") ("arxiv"), List.replicate 1001 1)]
    300 ("papers") { paper_id := ("2301.123"), pdf_url := ("u"), source := ("arxiv") }
    0 ("") none [] (List.replicate 1001 1)
    (by simp)
    (by
      rw [check_storage_capacity]
      apply decide_eq_true
      have hle := Files.pdf_usage_le_total
        [(generate_local_path (fun _ => ("z")) ("./papers") ("http://x/a.pdf") none,
          List.replicate 1001 0)]
      simp only [List.map_cons, List.map_nil, List.sum_cons, List.sum_nil,
        List.length_replicate] at hle
      rw [storage_limit_bytes]
      omega)
    (Files.lookup_fs_cons_self _ _ [])
    (by rw [List.length_replicate]; omega)
    rfl
    (Files.lookup_fs_cons_self _ _ [])
    (by rw [List.length_replicate]; omega)
  exact ⟨h.1, h.2.1, h.2.2.2.1⟩

/-- C6 counterexample to the claim as stated: `_download_fallback` performs
no validation at all.  A 200 response with the 3-byte body `[1, 2, 3]` is
written to disk and reported as success, leaving on disk a file that fails
`_validate_pdf_file` — so "after any download returns, no invalid or partial
file remains on disk" is false on the code. -/
theorem download_fallback_no_validation_cx :
    ((download_pdf (fun _ => ("")) (fun _ => ("z")) [] [] ("./papers")
        ("http://x/a.pdf") none true false false none none 200 ("OK")
        [1, 2, 3]).1.success = true) ∧
    (lookup_fs (download_pdf (fun _ => ("")) (fun _ => ("z")) [] [] ("./papers")
        ("http://x/a.pdf") none true false false none none 200 ("OK")
        [1, 2, 3]).2.1
      (generate_local_path (fun _ => ("z")) ("./papers") ("http://x/a.pdf") none) =
      some [1, 2, 3]) ∧
    (validate_pdf_file (download_pdf (fun _ => ("")) (fun _ => ("z")) [] []
        ("./papers") ("http://x/a.pdf") none true false false none none 200 ("OK")
        [1, 2, 3]).2.1
      (generate_local_path (fun _ => ("z")) ("./papers") ("http://x/a.pdf") none) =
      false) := by
  refine ⟨rfl, ?_, ?_⟩
  · rw [show (download_pdf (fun _ => ("")) (fun _ => ("z")) [] [] ("./papers")
        ("http://x/a.pdf") none true false false none none 200 ("OK")
        [1, 2, 3]).2.1 =
      [(generate_local_path (fun _ => ("z")) ("./papers") ("http://x/a.pdf") none,
        [1, 2, 3])] from rfl]
    exact Files.lookup_fs_cons_self _ _ []
  · rw [show (download_pdf (fun _ => ("")) (fun _ => ("z")) [] [] ("./papers")
        ("http://x/a.pdf") none true false false none none 200 ("OK")
        [1, 2, 3]).2.1 =
      [(generate_local_path (fun _ => ("z")) ("./papers") ("http://x/a.pdf") none,
        [1, 2, 3])] from rfl]
    simp only [validate_pdf_file, Files.lookup_fs_cons_self]
    decide

/-- C6 (amended): restricted to `PDFDownloader._download_file`: a written
file that fails validation (fewer than 1000 bytes or missing `%PDF-` header)
is deleted from disk and the download reports success=false; and whenever
`_download_file` reports success the file it leaves at the target path passes
validation.  (`_download_fallback` performs no validation, see the
counterexample.) -/
theorem download_file_validation_failure_deletes (hash : List Nat → String)
    (fs : Fs) (max_storage_bytes : Nat) (file_path reason : String)
    (content_length : Option Nat) (body : List Nat)
    (hn : (fs.map Prod.fst).Nodup)
    (hpre : ¬ (0 < content_length.getD 0 ∧
      ¬ can_store_file_fs fs max_storage_bytes (content_length.getD 0) = true))
    (hval : validate_pdf_file (insert_fs fs file_path body) file_path = false) :
    ((download_file hash fs max_storage_bytes file_path 200 reason content_length
        body).1.success = false) ∧
    (lookup_fs (download_file hash fs max_storage_bytes file_path 200 reason
        content_length body).2 file_path = none) ∧
    (∀ (status : Nat) (body2 : List Nat),
      (download_file hash fs max_storage_bytes file_path status reason
        content_length body2).1.success = true →
      validate_pdf_file (download_file hash fs max_storage_bytes file_path status
        reason content_length body2).2 file_path = true) := by
  have hmain : download_file hash fs max_storage_bytes file_path 200 reason
      content_length body =
      (if ¬ body.isEmpty ∧
          ¬ can_store_file_fs (insert_fs fs file_path body) max_storage_bytes 0 = true then
        ({ success := false,
           error := some (("Storage limit exceeded during download")) },
          remove_fs (insert_fs fs file_path body) file_path)
      else
        ({ success := false,
           error := some (("Downloaded file is not a valid PDF")) },
          remove_fs (insert_fs fs file_path body) file_path)) := by
    rw [download_file, if_neg (by simp), if_neg hpre]
    by_cases hmid : ¬ body.isEmpty ∧
        ¬ can_store_file_fs (insert_fs fs file_path body) max_storage_bytes 0 = true
    · rw [if_pos hmid, if_pos hmid]
    · rw [if_neg hmid, if_neg hmid, if_pos (by simp [hval])]
  refine ⟨?_, ?_, ?_⟩
  · rw [hmain]
    by_cases hmid : ¬ body.isEmpty ∧
        ¬ can_store_file_fs (insert_fs fs file_path body) max_storage_bytes 0 = true
    · rw [if_pos hmid]
    · rw [if_neg hmid]
  · rw [hmain]
    by_cases hmid : ¬ body.isEmpty ∧
        ¬ can_store_file_fs (insert_fs fs file_path body) max_storage_bytes 0 = true
    · rw [if_pos hmid]
      exact Files.lookup_fs_remove_insert hn
    · rw [if_neg hmid]
      exact Files.lookup_fs_remove_insert hn
  · intro status body2 hsucc
    by_cases hst : ¬ status = 200
    · rw [download_file, if_pos hst] at hsucc
      simp at hsucc
    · rw [download_file, if_neg hst] at hsucc ⊢
      by_cases hpre2 : 0 < content_length.getD 0 ∧
          ¬ can_store_file_fs fs max_storage_bytes (content_length.getD 0) = true
      · rw [if_pos hpre2] at hsucc
        simp at hsucc
      · rw [if_neg hpre2] at hsucc ⊢
        by_cases hmid : ¬ body2.isEmpty ∧
            ¬ can_store_file_fs (insert_fs fs file_path body2) max_storage_bytes 0 = true
        · rw [if_pos hmid] at hsucc
          simp at hsucc
        · rw [if_neg hmid] at hsucc ⊢
          by_cases hv : ¬ validate_pdf_file (insert_fs fs file_path body2) file_path = true
          · rw [if_pos hv] at hsucc
            simp at hsucc
          · rw [if_neg hv]
            exact not_not.mp hv

/-- Witness for C6 (amended) at a 3-byte invalid body written to a fresh
store: the result is a failure and the file is gone. -/
theorem download_file_validation_failure_deletes_witness :
    ((download_file (fun _ => ("h")) [] 1000000 ("p.pdf") 200 ("OK") none
        [1, 2, 3]).1.success = false) ∧
    (lookup_fs (download_file (fun _ => ("h")) [] 1000000 ("p.pdf") 200 ("OK") none
        [1, 2, 3]).2 ("p.pdf") = none) := by
  have h := download_file_validation_failure_deletes (fun _ => ("h")) [] 1000000
    ("p.pdf") ("OK") none [1, 2, 3] (by simp)
    (by simp)
    (by
      rw [show insert_fs ([] : Fs) ("p.pdf") [1, 2, 3] =
        [(("p.pdf"), [1, 2, 3])] from rfl]
      simp only [validate_pdf_file, Files.lookup_fs_cons_self]
      decide)
  exact ⟨h.1, h.2.1⟩

namespace Dedup

theorem total_unlink {fs : List StoredFile} {p : String} {g : StoredFile}
    (h : fs.find? (fun x => x.path = p) = some g) :
    total_bytes (unlink_path fs p) + g.contents.length = total_bytes fs := by
  induction fs with
  | nil => simp at h
  | cons f rest ih =>
      by_cases hf : f.path = p
      · rw [List.find?_cons_of_pos _ (by simpa using hf)] at h
        have : f = g := by simpa using h
        subst this
        rw [unlink_path, if_pos hf]
        simp [total_bytes]
        omega
      · rw [List.find?_cons_of_neg _ (by simpa using hf)] at h
        rw [unlink_path, if_neg hf]
        have := ih h
        simp only [total_bytes, List.map_cons, List.sum_cons] at *
        omega

theorem unlink_sublist (fs : List StoredFile) (p : String) :
    (unlink_path fs p).Sublist fs := by
  induction fs with
  | nil => simp [unlink_path]
  | cons f rest ih =>
      rw [unlink_path]
      by_cases hf : f.path = p
      · rw [if_pos hf]
        exact List.sublist_cons_self f rest
      · rw [if_neg hf]
        exact List.Sublist.cons₂ f ih

theorem unlink_eq_filter {fs : List StoredFile} {p : String}
    (hp : (fs.map (fun f => f.path)).Nodup) :
    unlink_path fs p = fs.filter (fun g => decide (¬ g.path = p)) := by
  induction fs with
  | nil => rfl
  | cons f rest ih =>
      rw [List.map_cons, List.nodup_cons] at hp
      rw [unlink_path, List.filter_cons]
      by_cases hf : f.path = p
      · rw [if_pos hf, if_neg (by simp [hf])]
        have : ∀ g ∈ rest, ¬ g.path = p := by
          intro g hg he
          exact hp.1 (hf ▸ he ▸ List.mem_map_of_mem _ hg)
        have hrest : rest.filter (fun g => decide (¬ g.path = p)) = rest := by
          apply List.filter_eq_self.mpr
          intro g hg
          simpa using this g hg
        rw [hrest]
      · rw [if_neg hf, if_pos (by simpa using hf)]
        rw [ih hp.2]

theorem stored_eq_of_same_path {fs : List StoredFile} {f g : StoredFile}
    (hp : (fs.map (fun x => x.path)).Nodup)
    (hf : f ∈ fs) (hg : g ∈ fs) (he : f.path = g.path) : f = g := by
  induction fs with
  | nil => simp at hf
  | cons x rest ih =>
      rw [List.map_cons, List.nodup_cons] at hp
      rcases List.mem_cons.mp hf with hf1 | hf1 <;>
        rcases List.mem_cons.mp hg with hg1 | hg1
      · rw [hf1, hg1]
      · subst hf1
        exact absurd (he ▸ List.mem_map_of_mem (fun x => x.path) hg1) hp.1
      · subst hg1
        exact absurd (he ▸ List.mem_map_of_mem (fun x => x.path) hf1) hp.1
      · exact ih hp.2 hf1 hg1

theorem remove_phase_total (ts : List StoredFile) :
    ∀ st : List StoredFile × Nat × Nat,
      total_bytes (ts.foldl (fun st f =>
        match st.1.find? (fun g => g.path = f.path) with
        | some g => (unlink_path st.1 f.path, st.2.1 + 1, st.2.2 + g.contents.length)
        | none => st) st).1 +
      (ts.foldl (fun st f =>
        match st.1.find? (fun g => g.path = f.path) with
        | some g => (unlink_path st.1 f.path, st.2.1 + 1, st.2.2 + g.contents.length)
        | none => st) st).2.2 =
      total_bytes st.1 + st.2.2 := by
  induction ts with
  | nil => intro st; rfl
  | cons f rest ih =>
      intro st
      rw [List.foldl_cons]
      rcases hf : st.1.find? (fun g => g.path = f.path) with _ | g
      · rw [show (match st.1.find? (fun g => g.path = f.path) with
          | some g => (unlink_path st.1 f.path, st.2.1 + 1, st.2.2 + g.contents.length)
          | none => st) = st by rw [hf]]
        exact ih st
      · rw [show (match st.1.find? (fun g => g.path = f.path) with
          | some g => (unlink_path st.1 f.path, st.2.1 + 1, st.2.2 + g.contents.length)
          | none => st) =
          (unlink_path st.1 f.path, st.2.1 + 1, st.2.2 + g.contents.length) by rw [hf]]
        rw [ih]
        have := total_unlink hf
        dsimp only []
        omega

theorem remove_phase_sublist (ts : List StoredFile) :
    ∀ st : List StoredFile × Nat × Nat,
      ((ts.foldl (fun st f =>
        match st.1.find? (fun g => g.path = f.path) with
        | some g => (unlink_path st.1 f.path, st.2.1 + 1, st.2.2 + g.contents.length)
        | none => st) st).1).Sublist st.1 := by
  induction ts with
  | nil => intro st; exact List.Sublist.refl _
  | cons f rest ih =>
      intro st
      rw [List.foldl_cons]
      rcases hf : st.1.find? (fun g => g.path = f.path) with _ | g
      · rw [show (match st.1.find? (fun g => g.path = f.path) with
          | some g => (unlink_path st.1 f.path, st.2.1 + 1, st.2.2 + g.contents.length)
          | none => st) = st by rw [hf]]
        exact ih st
      · rw [show (match st.1.find? (fun g => g.path = f.path) with
          | some g => (unlink_path st.1 f.path, st.2.1 + 1, st.2.2 + g.contents.length)
          | none => st) =
          (unlink_path st.1 f.path, st.2.1 + 1, st.2.2 + g.contents.length) by rw [hf]]
        exact (ih _).trans (unlink_sublist st.1 f.path)

theorem old_files_loop_total (cleanup_threshold : ℚ) (targets : List StoredFile) :
    ∀ (fs : List StoredFile) (removed freed : Nat),
      total_bytes (old_files_loop cleanup_threshold fs targets removed freed).1 +
        (old_files_loop cleanup_threshold fs targets removed freed).2.2 =
      total_bytes fs + freed := by
  induction targets with
  | nil => intro fs removed freed; rfl
  | cons f rest ih =>
      intro fs removed freed
      rcases hf : fs.find? (fun g => g.path = f.path) with _ | g
      · simp only [old_files_loop, hf]
        exact ih fs removed freed
      · have hacc := total_unlink hf
        by_cases hstop : usage_percentage (unlink_path fs f.path) < cleanup_threshold * 100
        · simp only [old_files_loop, hf, if_pos hstop]
          omega
        · simp only [old_files_loop, hf, if_neg hstop]
          rw [ih]
          omega

theorem old_files_loop_sublist (cleanup_threshold : ℚ) (targets : List StoredFile) :
    ∀ (fs : List StoredFile) (removed freed : Nat),
      ((old_files_loop cleanup_threshold fs targets removed freed).1).Sublist fs := by
  induction targets with
  | nil => intro fs removed freed; exact List.Sublist.refl _
  | cons f rest ih =>
      intro fs removed freed
      rcases hf : fs.find? (fun g => g.path = f.path) with _ | g
      · simp only [old_files_loop, hf]
        exact ih fs removed freed
      · by_cases hstop : usage_percentage (unlink_path fs f.path) < cleanup_threshold * 100
        · simp only [old_files_loop, hf, if_pos hstop]
          exact unlink_sublist fs f.path
        · simp only [old_files_loop, hf, if_neg hstop]
          exact (ih _ _ _).trans (unlink_sublist fs f.path)

theorem groups_lookup_cons (k : String) (v : List StoredFile)
    (rest : List (String × List StoredFile)) (c : String) :
    groups_lookup ((k, v) :: rest) c = if k = c then v else groups_lookup rest c := by
  by_cases hk : k = c
  · rw [groups_lookup, List.find?_cons_of_pos _ (by simpa using hk), if_pos hk]
  · rw [groups_lookup, List.find?_cons_of_neg _ (by simpa using hk), if_neg hk, groups_lookup]

theorem groups_lookup_insert (m : List (String × List StoredFile)) (c c' : String)
    (f : StoredFile) :
    groups_lookup (group_insert m c f) c' =
      if c' = c then groups_lookup m c' ++ [f] else groups_lookup m c' := by
  induction m with
  | nil =>
      rw [group_insert, groups_lookup_cons]
      by_cases hc : c' = c
      · rw [if_pos (hc.symm), if_pos hc]
        simp [groups_lookup]
      · rw [if_neg (fun h => hc h.symm), if_neg hc]
  | cons p rest ih =>
      rcases p with ⟨k, g⟩
      rw [group_insert]
      by_cases hk : k = c
      · rw [if_pos hk, groups_lookup_cons, groups_lookup_cons]
        by_cases hkc : k = c'
        · rw [if_pos hkc, if_pos hkc, if_pos (hkc.symm.trans hk)]
        · rw [if_neg hkc, if_neg hkc]
          by_cases hc : c' = c
          · exact absurd (hk.trans hc.symm) hkc
          · rw [if_neg hc]
      · rw [if_neg hk, groups_lookup_cons, groups_lookup_cons, ih]
        by_cases hkc : k = c'
        · rw [if_pos hkc, if_pos hkc]
          by_cases hc : c' = c
          · exact absurd (hkc.trans hc) hk
          · rw [if_neg hc]
        · rw [if_neg hkc, if_neg hkc]

theorem groups_lookup_fold (hash : List Nat → String) (c : String)
    (fs : List StoredFile) :
    ∀ m : List (String × List StoredFile),
      groups_lookup (fs.foldl (fun m f => group_insert m (hash f.contents) f) m) c =
        groups_lookup m c ++ fs.filter (fun f => decide (hash f.contents = c)) := by
  induction fs with
  | nil => intro m; simp
  | cons f rest ih =>
      intro m
      rw [List.foldl_cons, ih, groups_lookup_insert, List.filter_cons]
      by_cases hc : hash f.contents = c
      · rw [if_pos hc.symm, if_pos (by simpa using hc)]
        simp
      · rw [if_neg (fun h => hc h.symm), if_neg (by simpa using hc)]

theorem checksum_groups_lookup (hash : List Nat → String) (c : String)
    (fs : List StoredFile) :
    groups_lookup (checksum_groups hash fs) c =
      fs.filter (fun f => decide (hash f.contents = c)) := by
  rw [checksum_groups, groups_lookup_fold]
  rfl

theorem mem_keys_group_insert {m : List (String × List StoredFile)} {c x : String}
    {f : StoredFile} (hx : x ∈ (group_insert m c f).map Prod.fst) :
    x ∈ m.map Prod.fst ∨ x = c := by
  induction m with
  | nil =>
      rw [group_insert] at hx
      simp at hx
      exact Or.inr hx
  | cons p rest ih =>
      rcases p with ⟨k, g⟩
      rw [group_insert] at hx
      by_cases hk : k = c
      · rw [if_pos hk] at hx
        simp only [List.map_cons] at hx ⊢
        exact Or.inl hx
      · rw [if_neg hk] at hx
        simp only [List.map_cons, List.mem_cons] at hx ⊢
        rcases hx with hx | hx
        · exact Or.inl (Or.inl hx)
        · rcases ih hx with h | h
          · exact Or.inl (Or.inr h)
          · exact Or.inr h

theorem keys_nodup_group_insert {m : List (String × List StoredFile)} {c : String}
    {f : StoredFile} (hn : (m.map Prod.fst).Nodup) :
    ((group_insert m c f).map Prod.fst).Nodup := by
  induction m with
  | nil =>
      rw [group_insert]
      simp
  | cons p rest ih =>
      rcases p with ⟨k, g⟩
      rw [List.map_cons, List.nodup_cons] at hn
      rw [group_insert]
      by_cases hk : k = c
      · rw [if_pos hk]
        rw [List.map_cons, List.nodup_cons]
        exact ⟨hn.1, hn.2⟩
      · rw [if_neg hk]
        rw [List.map_cons, List.nodup_cons]
        refine ⟨?_, ih hn.2⟩
        intro hmem
        rcases mem_keys_group_insert hmem with h | h
        · exact hn.1 h
        · exact hk h

theorem checksum_groups_keys_nodup (hash : List Nat → String)
    (fs : List StoredFile) :
    ((checksum_groups hash fs).map Prod.fst).Nodup := by
  rw [checksum_groups]
  have hgen : ∀ m : List (String × List StoredFile), (m.map Prod.fst).Nodup →
      ((fs.foldl (fun m f => group_insert m (hash f.contents) f) m).map Prod.fst).Nodup := by
    induction fs with
    | nil => exact fun m hm => hm
    | cons f rest ih =>
        intro m hm
        rw [List.foldl_cons]
        exact ih _ (keys_nodup_group_insert hm)
  exact hgen [] (by simp)

theorem find?_pair_of_mem_nodup {m : List (String × List StoredFile)}
    {p : String × List StoredFile} (hn : (m.map Prod.fst).Nodup) (hp : p ∈ m) :
    m.find? (fun q => q.1 = p.1) = some p := by
  induction m with
  | nil => simp at hp
  | cons q rest ih =>
      rw [List.map_cons, List.nodup_cons] at hn
      rcases List.mem_cons.mp hp with hp1 | hp1
      · subst hp1
        exact List.find?_cons_of_pos _ (by simp)
      · have hq : ¬ q.1 = p.1 := by
          intro he
          exact hn.1 (he ▸ List.mem_map_of_mem _ hp1)
        rw [List.find?_cons_of_neg _ (by simpa using hq)]
        exact ih hn.2 hp1

/-- Every stored group is exactly the files of the store with that checksum. -/
theorem group_eq_filter {hash : List Nat → String} {fs : List StoredFile}
    {p : String × List StoredFile} (hp : p ∈ checksum_groups hash fs) :
    p.2 = fs.filter (fun f => decide (hash f.contents = p.1)) := by
  have h1 := find?_pair_of_mem_nodup (checksum_groups_keys_nodup hash fs) hp
  have h2 := checksum_groups_lookup hash p.1 fs
  rw [groups_lookup, h1] at h2
  exact h2

/-- A nonempty checksum class is stored as a group. -/
theorem group_exists {hash : List Nat → String} {fs : List StoredFile} {c : String}
    (hne : fs.filter (fun f => decide (hash f.contents = c)) ≠ []) :
    ∃ p : String × List StoredFile, p ∈ checksum_groups hash fs ∧ p.1 = c ∧
      p.2 = fs.filter (fun f => decide (hash f.contents = c)) := by
  have h2 := checksum_groups_lookup hash c fs
  rcases hf : (checksum_groups hash fs).find? (fun q => q.1 = c) with _ | p
  · rw [groups_lookup, hf] at h2
    exact absurd h2.symm hne
  · rw [groups_lookup, hf] at h2
    have hmem := List.mem_of_find?_eq_some hf
    have hkey : p.1 = c := by
      have := List.find?_some hf
      simpa using this
    exact ⟨p, hmem, hkey, h2⟩

/-- Every duplicate target lies in the tail of a checksum class of size > 1. -/
theorem mem_dedup_targets {hash : List Nat → String} {fs : List StoredFile}
    {x : StoredFile} (hx : x ∈ dedup_targets hash fs) :
    ∃ c : String, x ∈ (fs.filter (fun f => decide (hash f.contents = c))).tail ∧
      1 < (fs.filter (fun f => decide (hash f.contents = c))).length := by
  rw [dedup_targets, List.mem_flatten] at hx
  rcases hx with ⟨l, hl, hxl⟩
  rcases List.mem_map.mp hl with ⟨gg, hgg, hlt⟩
  rw [find_duplicate_files] at hgg
  have hgg2 := List.mem_filter.mp hgg
  rcases List.mem_map.mp hgg2.1 with ⟨p, hp, hps⟩
  have heq := group_eq_filter hp
  refine ⟨p.1, ?_, ?_⟩
  · rw [← heq, hps]
    exact hlt ▸ hxl
  · rw [← heq, hps]
    simpa using hgg2.2

/-- The tail of every checksum class of size > 1 consists of duplicate targets. -/
theorem tail_subset_dedup_targets {hash : List Nat → String} {fs : List StoredFile}
    {c : String}
    (hlen : 1 < (fs.filter (fun f => decide (hash f.contents = c))).length) :
    ∀ x ∈ (fs.filter (fun f => decide (hash f.contents = c))).tail,
      x ∈ dedup_targets hash fs := by
  intro x hx
  have hne : fs.filter (fun f => decide (hash f.contents = c)) ≠ [] := by
    intro h
    rw [h] at hlen
    simp at hlen
  obtain ⟨p, hp, hpk, hpv⟩ := group_exists hne
  rw [dedup_targets, List.mem_flatten]
  refine ⟨p.2.tail, ?_, ?_⟩
  · apply List.mem_map_of_mem
    rw [find_duplicate_files, List.mem_filter]
    refine ⟨List.mem_map_of_mem Prod.snd hp, ?_⟩
    rw [hpv]
    simpa using hlen
  · rw [hpv]
    exact hx

/-- With distinct paths, the duplicate-removal fold keeps exactly the files
whose path matches no target. -/
theorem remove_phase_fold_fst (ts : List StoredFile) :
    ∀ st : List StoredFile × Nat × Nat, ((st.1.map (fun f => f.path)).Nodup) →
      (ts.foldl (fun st f =>
        match st.1.find? (fun g => g.path = f.path) with
        | some g => (unlink_path st.1 f.path, st.2.1 + 1, st.2.2 + g.contents.length)
        | none => st) st).1 =
      st.1.filter (fun g => decide (∀ f ∈ ts, ¬ f.path = g.path)) := by
  induction ts with
  | nil =>
      intro st _hn
      rw [List.foldl_nil]
      symm
      apply List.filter_eq_self.mpr
      intro g _
      simp
  | cons f rest ih =>
      intro st hn
      rw [List.foldl_cons]
      rcases hf : st.1.find? (fun g => g.path = f.path) with _ | g0
      · rw [show (match st.1.find? (fun g => g.path = f.path) with
          | some g => (unlink_path st.1 f.path, st.2.1 + 1, st.2.2 + g.contents.length)
          | none => st) = st by rw [hf]]
        rw [ih st hn]
        have hall : ∀ x ∈ st.1, ¬ x.path = f.path := by
          intro x hx
          have := List.find?_eq_none.mp hf x hx
          simpa using this
        apply List.filter_congr
        intro g hg
        rw [Bool.eq_iff_iff]
        simp only [decide_eq_true_eq, List.forall_mem_cons]
        constructor
        · intro hrest
          exact ⟨fun he => hall g hg he.symm, hrest⟩
        · intro h
          exact h.2
      · rw [show (match st.1.find? (fun g => g.path = f.path) with
          | some g => (unlink_path st.1 f.path, st.2.1 + 1, st.2.2 + g.contents.length)
          | none => st) =
          (unlink_path st.1 f.path, st.2.1 + 1, st.2.2 + g0.contents.length) by rw [hf]]
        have hn1 : (((unlink_path st.1 f.path).map (fun f => f.path)).Nodup) :=
          (((unlink_sublist st.1 f.path).map (fun f => f.path))).nodup hn
        rw [ih (unlink_path st.1 f.path, st.2.1 + 1, st.2.2 + g0.contents.length) hn1]
        dsimp only []
        rw [unlink_eq_filter hn, List.filter_filter]
        apply List.filter_congr
        intro g hg
        rw [Bool.eq_iff_iff]
        simp only [Bool.and_eq_true, decide_eq_true_eq, List.forall_mem_cons]
        constructor
        · rintro ⟨hrest, hne⟩
          exact ⟨fun he => hne he.symm, hrest⟩
        · rintro ⟨hne, hrest⟩
          exact ⟨hrest, fun he => hne he.symm⟩

/-- With distinct paths, the duplicate-removal phase leaves exactly
`min (class size) 1` files in every checksum class. -/
theorem dedup_leaves_one_per_class (hash : List Nat → String) (fs : List StoredFile)
    (hp : (fs.map (fun f => f.path)).Nodup) (c : String) :
    (remove_phase fs (dedup_targets hash fs)).1.countP
        (fun f => decide (hash f.contents = c)) =
      min (fs.countP (fun f => decide (hash f.contents = c))) 1 := by
  have hr : (remove_phase fs (dedup_targets hash fs)).1 =
      fs.filter (fun g => decide (∀ f ∈ dedup_targets hash fs, ¬ f.path = g.path)) := by
    rw [remove_phase]
    exact remove_phase_fold_fst (dedup_targets hash fs) (fs, 0, 0) hp
  rw [hr, List.countP_filter, List.countP_eq_length_filter,
    List.countP_eq_length_filter, ← List.filter_filter, List.filter_comm]
  have hGn : (((fs.filter (fun f => decide (hash f.contents = c))).map
      (fun f => f.path)).Nodup) :=
    ((List.filter_sublist fs).map (fun f => f.path)).nodup hp
  rcases hGe : fs.filter (fun f => decide (hash f.contents = c)) with _ | ⟨hd, tl⟩
  · rw [hGe]
    simp
  · have hdmemG : hd ∈ fs.filter (fun f => decide (hash f.contents = c)) := by
      rw [hGe]
      exact List.mem_cons_self hd tl
    have hdmem : hd ∈ fs := (List.mem_filter.mp hdmemG).1
    have hdhash : hash hd.contents = c := by
      have := (List.mem_filter.mp hdmemG).2
      simpa using this
    have hShd : decide (∀ f ∈ dedup_targets hash fs, ¬ f.path = hd.path) = true := by
      apply decide_eq_true
      intro f hf he
      obtain ⟨c', hftail, _⟩ := mem_dedup_targets hf
      have hfmem : f ∈ fs :=
        (List.mem_filter.mp (List.mem_of_mem_tail hftail)).1
      have hfe : f = hd := stored_eq_of_same_path hp hfmem hdmem he
      subst hfe
      have hfhash : hash f.contents = c' := by
        have := (List.mem_filter.mp (List.mem_of_mem_tail hftail)).2
        simpa using this
      rw [hfhash] at hdhash
      subst hdhash
      have hdtl : f ∈ tl := by
        rw [hGe] at hftail
        exact hftail
      rw [hGe, List.map_cons, List.nodup_cons] at hGn
      exact hGn.1 (List.mem_map_of_mem (fun f => f.path) hdtl)
    have hStl : ∀ x ∈ tl, decide (∀ f ∈ dedup_targets hash fs, ¬ f.path = x.path) = false := by
      intro x hx
      have hlen : 1 < (fs.filter (fun f => decide (hash f.contents = c))).length := by
        rw [hGe, List.length_cons]
        have := List.length_pos_of_mem hx
        omega
      have htar : x ∈ dedup_targets hash fs := by
        apply tail_subset_dedup_targets hlen
        rw [hGe]
        exact hx
      exact decide_eq_false (fun h => h x htar rfl)
    rw [hGe, List.filter_cons, if_pos hShd]
    have hftl : tl.filter (fun g => decide (∀ f ∈ dedup_targets hash fs, ¬ f.path = g.path)) = [] := by
      apply List.filter_eq_nil_iff.mpr
      intro x hx
      rw [hStl x hx]
      simp
    rw [hftl]
    simp only [List.length_cons, List.length_nil]
    omega

theorem usage_percentage_nonneg (fs : List StoredFile) : 0 ≤ usage_percentage fs := by
  rw [usage_percentage]
  positivity

end Dedup

/-- C7: when cleanup triggers (usage not below the threshold) and stored paths
are distinct, `manage_storage` reports `cleanup_needed`, its deduplication
phase leaves exactly `min (group size) 1` files in every checksum group (so
exactly one file per group that had a member, deleting all but one member of
every group with more than one), the bytes freed by the dedup phase equal the
total size of the files it removed, the reported `freed_space` equals the
total size of all files removed by the cleanup, and the remaining store is a
subsequence of the original. -/
theorem dedup_cleanup_spec (hash : List Nat → String) (cleanup_threshold : ℚ)
    (fs : List StoredFile)
    (htrig : ¬ usage_percentage fs < cleanup_threshold * 100)
    (hp : ((fs.map (fun f => f.path)).Nodup)) :
    (manage_storage hash cleanup_threshold fs).1.cleanup_needed = true ∧
    (∀ c : String,
      (remove_phase fs (dedup_targets hash fs)).1.countP
          (fun f => decide (hash f.contents = c)) =
        min (fs.countP (fun f => decide (hash f.contents = c))) 1) ∧
    total_bytes (remove_phase fs (dedup_targets hash fs)).1 +
        (remove_phase fs (dedup_targets hash fs)).2.2 = total_bytes fs ∧
    total_bytes (manage_storage hash cleanup_threshold fs).2 +
        (manage_storage hash cleanup_threshold fs).1.freed_space_bytes = total_bytes fs ∧
    ((manage_storage hash cleanup_threshold fs).2).Sublist fs := by
  have h3 : total_bytes (remove_phase fs (dedup_targets hash fs)).1 +
      (remove_phase fs (dedup_targets hash fs)).2.2 = total_bytes fs := by
    rw [remove_phase]
    have h := Dedup.remove_phase_total (dedup_targets hash fs) (fs, 0, 0)
    dsimp only [] at h
    omega
  have hdsub : ((remove_phase fs (dedup_targets hash fs)).1).Sublist fs := by
    rw [remove_phase]
    exact Dedup.remove_phase_sublist (dedup_targets hash fs) (fs, 0, 0)
  refine ⟨?_, ?_, h3, ?_, ?_⟩
  · rw [manage_storage, if_neg htrig]
  · intro c
    exact Dedup.dedup_leaves_one_per_class hash fs hp c
  · rw [manage_storage, if_neg htrig]
    dsimp only []
    by_cases hcond : cleanup_threshold * 100 ≤
        usage_percentage (remove_phase fs (dedup_targets hash fs)).1
    · rw [if_pos hcond]
      have h4 := Dedup.old_files_loop_total cleanup_threshold (find_old_files fs)
        (remove_phase fs (dedup_targets hash fs)).1 0 0
      omega
    · rw [if_neg hcond]
      dsimp only []
      omega
  · rw [manage_storage, if_neg htrig]
    dsimp only []
    by_cases hcond : cleanup_threshold * 100 ≤
        usage_percentage (remove_phase fs (dedup_targets hash fs)).1
    · rw [if_pos hcond]
      exact (Dedup.old_files_loop_sublist cleanup_threshold (find_old_files fs)
        (remove_phase fs (dedup_targets hash fs)).1 0 0).trans hdsub
    · rw [if_neg hcond]
      exact hdsub

/-- Witness for C7: three stored files, two sharing contents, at threshold 0. -/
theorem dedup_cleanup_spec_witness :
    (¬ usage_percentage
        ([⟨("a.pdf"), [1], 0⟩, ⟨("b.pdf"), [1], 1⟩, ⟨("c.pdf"), [2], 2⟩] :
          List StoredFile) < (0 : ℚ) * 100) ∧
    ((([⟨("a.pdf"), [1], 0⟩, ⟨("b.pdf"), [1], 1⟩, ⟨("c.pdf"), [2], 2⟩] :
        List StoredFile).map (fun f => f.path)).Nodup) ∧
    ((manage_storage (fun _ => ("h")) 0
        [⟨("a.pdf"), [1], 0⟩, ⟨("b.pdf"), [1], 1⟩, ⟨("c.pdf"), [2], 2⟩]).1.cleanup_needed
          = true ∧
      (∀ c : String,
        (remove_phase [⟨("a.pdf"), [1], 0⟩, ⟨("b.pdf"), [1], 1⟩, ⟨("c.pdf"), [2], 2⟩]
            (dedup_targets (fun _ => ("h"))
              [⟨("a.pdf"), [1], 0⟩, ⟨("b.pdf"), [1], 1⟩, ⟨("c.pdf"), [2], 2⟩])).1.countP
            (fun f => decide ((fun _ => ("h")) f.contents = c)) =
          min (([⟨("a.pdf"), [1], 0⟩, ⟨("b.pdf"), [1], 1⟩, ⟨("c.pdf"), [2], 2⟩] :
            List StoredFile).countP
              (fun f => decide ((fun _ => ("h")) f.contents = c))) 1) ∧
      total_bytes (remove_phase
          [⟨("a.pdf"), [1], 0⟩, ⟨("b.pdf"), [1], 1⟩, ⟨("c.pdf"), [2], 2⟩]
          (dedup_targets (fun _ => ("h"))
            [⟨("a.pdf"), [1], 0⟩, ⟨("b.pdf"), [1], 1⟩, ⟨("c.pdf"), [2], 2⟩])).1 +
        (remove_phase [⟨("a.pdf"), [1], 0⟩, ⟨("b.pdf"), [1], 1⟩, ⟨("c.pdf"), [2], 2⟩]
          (dedup_targets (fun _ => ("h"))
            [⟨("a.pdf"), [1], 0⟩, ⟨("b.pdf"), [1], 1⟩, ⟨("c.pdf"), [2], 2⟩])).2.2 =
        total_bytes [⟨("a.pdf"), [1], 0⟩, ⟨("b.pdf"), [1], 1⟩, ⟨("c.pdf"), [2], 2⟩] ∧
      total_bytes (manage_storage (fun _ => ("h")) 0
          [⟨("a.pdf"), [1], 0⟩, ⟨("b.pdf"), [1], 1⟩, ⟨("c.pdf"), [2], 2⟩]).2 +
        (manage_storage (fun _ => ("h")) 0
          [⟨("a.pdf"), [1], 0⟩, ⟨("b.pdf"), [1], 1⟩,
            ⟨("c.pdf"), [2], 2⟩]).1.freed_space_bytes =
        total_bytes [⟨("a.pdf"), [1], 0⟩, ⟨("b.pdf"), [1], 1⟩, ⟨("c.pdf"), [2], 2⟩] ∧
      ((manage_storage (fun _ => ("h")) 0
          [⟨("a.pdf"), [1], 0⟩, ⟨("b.pdf"), [1], 1⟩, ⟨("c.pdf"), [2], 2⟩]).2).Sublist
        [⟨("a.pdf"), [1], 0⟩, ⟨("b.pdf"), [1], 1⟩, ⟨("c.pdf"), [2], 2⟩]) := by
  have htrig : ¬ usage_percentage
      ([⟨("a.pdf"), [1], 0⟩, ⟨("b.pdf"), [1], 1⟩, ⟨("c.pdf"), [2], 2⟩] :
        List StoredFile) < (0 : ℚ) * 100 := by
    rw [zero_mul]
    exact not_lt.mpr (Dedup.usage_percentage_nonneg _)
  exact ⟨htrig, by decide,
    dedup_cleanup_spec (fun _ => ("h")) 0 _ htrig (by decide)⟩

end RxivScraper
